import Mathlib

/-!
Shallow embedding of the `responsiveStretch` RTD provider
(`src/modules/responsiveStretchProvider.js`) of the ResponsiveAds/Prebid.js
repository.  The source file contains two concatenated copies of the module
(an earlier variant at lines 1-351 and the main variant at lines 353-698)
followed by the module's test suite.  Unless a definition says otherwise it
embeds the main (second) copy; definitions from the earlier copy live in the
`FirstVersion` namespace or are marked as such.

JavaScript numbers are modelled as exact rationals for finite values, with
explicit `posInf`/`negInf`/`nan` constructors for the IEEE special values that
arise from division by zero.  Viewport dimensions (`window.innerWidth` /
`window.innerHeight`, read by the external `getViewportSize` helper) are
integral CSS pixel counts and are modelled as integers.
-/

/-- A JavaScript number: a finite (exact rational) value or one of the
IEEE special values produced by division by zero. -/
inductive JNum where
  | fin (q : ℚ)
  | posInf
  | negInf
  | nan
deriving DecidableEq, Repr

/-- `Math.round` on a finite value: nearest integer, halves toward `+∞`. -/
def roundQ (q : ℚ) : ℚ := ((Rat.floor (q + 1/2) : ℤ) : ℚ)

theorem roundQ_def (q : ℚ) : roundQ q = ((⌊q + 1/2⌋ : ℤ) : ℚ) := by
  rw [roundQ, Rat.floor_def', ← Rat.floor_def]

/-- Rounding an integral value is the identity. -/
theorem roundQ_intCast (n : ℤ) : roundQ ((n : ℤ) : ℚ) = ((n : ℤ) : ℚ) := by
  rw [roundQ_def]
  norm_num

/-- `Math.round` on a JavaScript number: `Math.round(Infinity) = Infinity`
and `Math.round(NaN) = NaN`. -/
def jsRound : JNum → JNum
  | .fin q => .fin (roundQ q)
  | .posInf => .posInf
  | .negInf => .negInf
  | .nan => .nan

/-- JavaScript division of finite values: `a / 0` is `NaN` when `a = 0` and
`±Infinity` otherwise. -/
def jsDiv (a b : ℚ) : JNum :=
  if b = 0 then
    if a = 0 then .nan else if 0 < a then .posInf else .negInf
  else .fin (a / b)

/-- Multiplication of a JavaScript number by the positive literal `100`
(`Infinity * 100 = Infinity`, `NaN * 100 = NaN`). -/
def jsMul100 : JNum → JNum
  | .fin q => .fin (q * 100)
  | .posInf => .posInf
  | .negInf => .negInf
  | .nan => .nan

/-- A JSON-like JavaScript value: the type of the ORTB2 augmentation tree,
of the collected stretch records and of configuration values.  Objects are
ordered association lists, mirroring JavaScript property order. -/
inductive JVal where
  | num (n : JNum)
  | str (s : String)
  | bool (b : Bool)
  | null
  | arr (xs : List JVal)
  | obj (fs : List (String × JVal))
deriving Repr

mutual

/-- Structural (deep) equality of JavaScript values. -/
def jvalBeq : JVal → JVal → Bool
  | .num a, .num b => a == b
  | .str a, .str b => a == b
  | .bool a, .bool b => a == b
  | .null, .null => true
  | .arr xs, .arr ys => jvalBeqList xs ys
  | .obj fs, .obj gs => jvalBeqFields fs gs
  | _, _ => false

def jvalBeqList : List JVal → List JVal → Bool
  | [], [] => true
  | x :: xs, y :: ys => jvalBeq x y && jvalBeqList xs ys
  | _, _ => false

def jvalBeqFields : List (String × JVal) → List (String × JVal) → Bool
  | [], [] => true
  | (k, v) :: fs, (k', w) :: gs => k == k' && jvalBeq v w && jvalBeqFields fs gs
  | _, _ => false

end

mutual

theorem jvalBeq_iff : ∀ a b : JVal, jvalBeq a b = true ↔ a = b
  | .num a, .num b => by simp [jvalBeq]
  | .num _, .str _ => by simp [jvalBeq]
  | .num _, .bool _ => by simp [jvalBeq]
  | .num _, .null => by simp [jvalBeq]
  | .num _, .arr _ => by simp [jvalBeq]
  | .num _, .obj _ => by simp [jvalBeq]
  | .str _, .num _ => by simp [jvalBeq]
  | .str a, .str b => by simp [jvalBeq]
  | .str _, .bool _ => by simp [jvalBeq]
  | .str _, .null => by simp [jvalBeq]
  | .str _, .arr _ => by simp [jvalBeq]
  | .str _, .obj _ => by simp [jvalBeq]
  | .bool _, .num _ => by simp [jvalBeq]
  | .bool _, .str _ => by simp [jvalBeq]
  | .bool a, .bool b => by simp [jvalBeq]
  | .bool _, .null => by simp [jvalBeq]
  | .bool _, .arr _ => by simp [jvalBeq]
  | .bool _, .obj _ => by simp [jvalBeq]
  | .null, .num _ => by simp [jvalBeq]
  | .null, .str _ => by simp [jvalBeq]
  | .null, .bool _ => by simp [jvalBeq]
  | .null, .null => by simp [jvalBeq]
  | .null, .arr _ => by simp [jvalBeq]
  | .null, .obj _ => by simp [jvalBeq]
  | .arr _, .num _ => by simp [jvalBeq]
  | .arr _, .str _ => by simp [jvalBeq]
  | .arr _, .bool _ => by simp [jvalBeq]
  | .arr _, .null => by simp [jvalBeq]
  | .arr xs, .arr ys => by simp [jvalBeq, jvalBeqList_iff xs ys]
  | .arr _, .obj _ => by simp [jvalBeq]
  | .obj _, .num _ => by simp [jvalBeq]
  | .obj _, .str _ => by simp [jvalBeq]
  | .obj _, .bool _ => by simp [jvalBeq]
  | .obj _, .null => by simp [jvalBeq]
  | .obj _, .arr _ => by simp [jvalBeq]
  | .obj fs, .obj gs => by simp [jvalBeq, jvalBeqFields_iff fs gs]

theorem jvalBeqList_iff : ∀ xs ys : List JVal, jvalBeqList xs ys = true ↔ xs = ys
  | [], [] => by simp [jvalBeqList]
  | [], _ :: _ => by simp [jvalBeqList]
  | _ :: _, [] => by simp [jvalBeqList]
  | x :: xs, y :: ys => by
      simp [jvalBeqList, jvalBeq_iff x y, jvalBeqList_iff xs ys]

theorem jvalBeqFields_iff :
    ∀ fs gs : List (String × JVal), jvalBeqFields fs gs = true ↔ fs = gs
  | [], [] => by simp [jvalBeqFields]
  | [], _ :: _ => by simp [jvalBeqFields]
  | _ :: _, [] => by simp [jvalBeqFields]
  | (k, v) :: fs, (k', w) :: gs => by
      simp [jvalBeqFields, jvalBeq_iff v w, jvalBeqFields_iff fs gs, and_assoc]

end

instance : DecidableEq JVal := fun a b => decidable_of_iff _ (jvalBeq_iff a b)

/-- JavaScript truthiness of a value (`false`, `0`, `NaN`, `""`, `null` and
`undefined` are falsy; arrays and objects are always truthy). -/
def jsTruthy : JVal → Bool
  | .num (.fin q) => decide (q ≠ 0)
  | .num .nan => false
  | .num _ => true
  | .str s => decide (s ≠ "")
  | .bool b => b
  | .null => false
  | .arr _ => true
  | .obj _ => true

/-- `isArray` of `src/utils.js` (an `Array.isArray` check). -/
def isArray : JVal → Bool
  | .arr _ => true
  | _ => false

/-- Modelled from the spec: `isEmpty` of `src/utils.js`, the emptiness test
used on the configured bidder list and the collected data ("empty collection").
Arrays, strings and objects are empty when they have no elements; `null` and
primitive values (which have no enumerable properties) count as empty. -/
def isEmpty : JVal → Bool
  | .null => true
  | .arr xs => xs.isEmpty
  | .str s => s.isEmpty
  | .obj fs => fs.isEmpty
  | .num _ => true
  | .bool _ => true

/-- First-match lookup of a property in an object's field list. -/
def lookupField : List (String × JVal) → String → Option JVal
  | [], _ => none
  | (k, v) :: fs, k' => if k = k' then some v else lookupField fs k'

/-- Property read `m[k]` on a value (non-objects have no data properties). -/
def getField (m : JVal) (k : String) : Option JVal :=
  match m with
  | .obj fs => lookupField fs k
  | _ => none

/-- Property read through an `Option` (`none` models a `null` result). -/
def optGetField (o : Option JVal) (k : String) : Option JVal :=
  o.bind (fun m => getField m k)

/-- The current visible viewport, as returned by the external
`getViewportSize` helper (`window.innerWidth`/`innerHeight`, integral
CSS pixels). -/
structure Viewport where
  width : ℤ
  height : ℤ
deriving DecidableEq, Repr

/-- The result of `getBoundingClientRect`: a `DOMRect`, which stores the
origin and size; per the CSSOM specification `left = x`, `top = y`,
`right = x + width` and `bottom = y + height` for the non-negative sizes a
layout engine produces. -/
structure DOMRect where
  x : ℚ
  y : ℚ
  width : ℚ
  height : ℚ
deriving DecidableEq, Repr

def DOMRect.left (r : DOMRect) : ℚ := r.x
def DOMRect.top (r : DOMRect) : ℚ := r.y
def DOMRect.right (r : DOMRect) : ℚ := r.x + r.width
def DOMRect.bottom (r : DOMRect) : ℚ := r.y + r.height

/-- The layout-reading view of a located ad-slot element.
`rect = none` models `getBoundingClientRect(element)` throwing a host error;
`parentRect = none` models `element.parentElement === null`;
`parentRect = some none` models the parent's layout read throwing. -/
structure ElemGeom where
  rect : Option DOMRect
  parentRect : Option (Option DOMRect)
deriving DecidableEq, Repr

/-- The object literal built by `calculateAdSlotSpace` (main copy,
lines 387-445), with fields in source order.  `pw`/`ph` are the already
computed `parentWidth`/`parentHeight` values. -/
def mkSpace (rect : DOMRect) (vp : Viewport) (pw ph : JVal) : JVal :=
  .obj
    [ ("width", .num (.fin (roundQ rect.width)))
    , ("height", .num (.fin (roundQ rect.height)))
    , ("top", .num (.fin (roundQ rect.top)))
    , ("left", .num (.fin (roundQ rect.left)))
    , ("right", .num (.fin (roundQ ((vp.width : ℚ) - rect.right))))
    , ("bottom", .num (.fin (roundQ ((vp.height : ℚ) - rect.bottom))))
    , ("maxWidth", .num (.fin (roundQ (vp.width : ℚ))))
    , ("maxHeight", .num (.fin (roundQ (vp.height : ℚ))))
    , ("stretchLeft", .num (.fin (roundQ rect.left)))
    , ("stretchRight", .num (.fin (roundQ ((vp.width : ℚ) - rect.right))))
    , ("stretchUp", .num (.fin (roundQ rect.top)))
    , ("stretchDown", .num (.fin (roundQ ((vp.height : ℚ) - rect.bottom))))
    , ("totalAvailableWidth",
        .num (.fin (roundQ (rect.width + rect.left + ((vp.width : ℚ) - rect.right)))))
    , ("totalAvailableHeight",
        .num (.fin (roundQ (rect.height + rect.top + ((vp.height : ℚ) - rect.bottom)))))
    , ("viewportWidth", .num (.fin (roundQ (vp.width : ℚ))))
    , ("viewportHeight", .num (.fin (roundQ (vp.height : ℚ))))
    , ("isVisible", .bool
        (decide (0 < rect.width) && decide (0 < rect.height) &&
         decide (0 < rect.bottom) && decide (0 < rect.right) &&
         decide (rect.top < (vp.height : ℚ)) && decide (rect.left < (vp.width : ℚ))))
    , ("viewportWidthPercentage", .num (jsRound (jsMul100 (jsDiv rect.width (vp.width : ℚ)))))
    , ("viewportHeightPercentage", .num (jsRound (jsMul100 (jsDiv rect.height (vp.height : ℚ)))))
    , ("parentWidth", pw)
    , ("parentHeight", ph)
    ]

/-- `calculateAdSlotSpace` (main copy, lines 387-445): `null` for an absent
element; any host error thrown while reading the element's or its parent's
layout is caught and yields `null`; otherwise the measurement record. -/
def calculateAdSlotSpace (element : Option ElemGeom) (vp : Viewport) : Option JVal :=
  match element with
  | none => none
  | some el =>
    match el.rect with
    | none => none
    | some rect =>
      match el.parentRect with
      | some none => none
      | none => some (mkSpace rect vp .null .null)
      | some (some p) =>
          some (mkSpace rect vp (.num (.fin (roundQ p.width))) (.num (.fin (roundQ p.height))))

/-! ### JavaScript objects: property assignment and deep merge -/

/-- The keys of an object's field list, in property order. -/
def keysOf (fs : List (String × JVal)) : List String := fs.map Prod.fst

/-- JavaScript property assignment `o[k] = v`: an existing key keeps its
position and gets the new value, a fresh key is appended. -/
def setField : List (String × JVal) → String → JVal → List (String × JVal)
  | [], k, v => [(k, v)]
  | (k', v') :: fs, k, v =>
      if k' = k then (k', v) :: fs else (k', v') :: setField fs k v

/-- `Object.fromEntries`: sequential property assignment into a fresh object,
so a duplicated key keeps its first position with its last value. -/
def objFromEntries (l : List (String × JVal)) : List (String × JVal) :=
  l.foldl (fun acc p => setField acc p.1 p.2) []

/-- Deep-equality membership used by the array branch of the deep merge. -/
def arrMem (x : JVal) (l : List JVal) : Bool := l.any (fun y => jvalBeq y x)

/-- Append an array element unless a deep-equal one is already present. -/
def arrInsert (acc : List JVal) (x : JVal) : List JVal :=
  if arrMem x acc then acc else acc ++ [x]

/-- Union of two arrays, keeping the target's elements and appending the
source's elements that are not already present. -/
def arrUnion (t s : List JVal) : List JVal := s.foldl arrInsert t

mutual

/-- Modelled from the spec: `mergeDeep` of `src/utils.js` (the deep merge
used for every ORTB2 write; its code is not part of this repository slice).
Nested objects are recursively unioned with fresh keys appended in source
order; arrays are unioned without duplicating entries already present (the
spec requires re-merging an identical payload to be idempotent, with no
duplicated list entries); for any other combination the source value wins. -/
def mergeDeep : JVal → JVal → JVal
  | .obj t, .obj s => .obj (mergeDeepFields t s)
  | .arr t, .arr s => .arr (arrUnion t s)
  | _, s => s

/-- Merge the source object's fields into the target field list, left to
right. -/
def mergeDeepFields : List (String × JVal) → List (String × JVal) → List (String × JVal)
  | t, [] => t
  | t, (k, v) :: rest => mergeDeepFields (mergeDeepEntry t k v) rest

/-- Merge one source property into the target field list: an existing key
keeps its position and has the values merged, a fresh key is appended. -/
def mergeDeepEntry : List (String × JVal) → String → JVal → List (String × JVal)
  | [], k, v => [(k, v)]
  | (k', v') :: t, k, v =>
      if k' = k then (k', mergeDeep v' v) :: t else (k', v') :: mergeDeepEntry t k v

end

/-! ### Module configuration -/

/-- The recognised members of `moduleConfig.params`; `none` models an absent
property (`undefined`). -/
structure ModuleParams where
  bidders : Option JVal := none
  global : Option JVal := none
  impLevel : Option JVal := none

/-- The RTD module configuration object; `params` may be absent. -/
structure ModuleConfig where
  params : Option ModuleParams := none

/-- `moduleConfig.params?.bidders || []` (lines 514 and 137). -/
def getBidders (cfg : ModuleConfig) : JVal :=
  match cfg.params with
  | some p =>
    match p.bidders with
    | some b => if jsTruthy b then b else .arr []
    | none => .arr []
  | none => .arr []

/-- `moduleConfig.params?.global !== false` (lines 515 and 138). -/
def globalEnabled (cfg : ModuleConfig) : Bool :=
  !decide (cfg.params.bind ModuleParams.global = some (.bool false))

/-- `moduleConfig.params?.impLevel !== false` (lines 516 and 139). -/
def impLevelEnabled (cfg : ModuleConfig) : Bool :=
  !decide (cfg.params.bind ModuleParams.impLevel = some (.bool false))

/-- The guard of the global-scope merge:
`globalEnabled && (isEmpty(bidders) || !isArray(bidders))` (lines 519, 142). -/
def globalCondition (cfg : ModuleConfig) : Bool :=
  globalEnabled cfg && (isEmpty (getBidders cfg) || !isArray (getBidders cfg))

/-- The guard of the per-bidder merge:
`isArray(bidders) && bidders.length > 0` (lines 539, 161). -/
def bidderCondition (cfg : ModuleConfig) : Bool :=
  match getBidders cfg with
  | .arr bs => !bs.isEmpty
  | _ => false

/-- JavaScript string coercion of a computed property key, as performed by
`Object.fromEntries` on the mapped bidder list.  String keys (the only kind a
sane configuration contains) map to themselves; the JavaScript formatting of
exotic non-string keys is abbreviated. -/
def jsKeyOf : JVal → String
  | .str s => s
  | .bool true => "true"
  | .bool false => "false"
  | .null => "null"
  | .num (.fin q) => toString q
  | .num .posInf => "Infinity"
  | .num .negInf => "-Infinity"
  | .num .nan => "NaN"
  | .arr _ => ""
  | .obj _ => "[object Object]"

/-! ### The ORTB2 fragment merge (`addStretchDataToORTB2`) -/

/-- The value returned by the external `getViewportSize` helper, as embedded
in the global/bidder payloads. -/
def getViewportSizeJ (vp : Viewport) : JVal :=
  .obj [("width", .num (.fin vp.width)), ("height", .num (.fin vp.height))]

/-- The `{site: {ext: {data: {responsiveStretch: {viewport, adUnits,
timestamp}}}}}` payload literal of lines 520-532 and 540-552; `now` is the
value of `Date.now()`. -/
def stretchPayload (vp : Viewport) (stretchData : List (String × JVal)) (now : ℚ) : JVal :=
  .obj [("site", .obj [("ext", .obj [("data", .obj [("responsiveStretch",
    .obj [ ("viewport", getViewportSizeJ vp)
         , ("adUnits", .obj stretchData)
         , ("timestamp", .num (.fin now))])])])])]

/-- An ad unit of `reqBidsConfigObj.adUnits`; `ortb2Imp = none` models an
absent property. -/
structure AdUnit where
  code : String
  ortb2Imp : Option JVal := none

/-- The slice of `reqBidsConfigObj` the module reads and writes:
`ortb2Fragments.global`, `ortb2Fragments.bidder` and `adUnits`
(`adUnits = none` models an absent property). -/
structure ReqBidsConfig where
  global : JVal
  bidder : JVal
  adUnits : Option (List AdUnit)

/-- The impression payload `{ext: {data: {responsiveStretch: stretchInfo}}}`
of lines 567-573. -/
def impDataFor (si : JVal) : JVal :=
  .obj [("ext", .obj [("data", .obj [("responsiveStretch", si)])])]

/-- `adUnit.ortb2Imp = adUnit.ortb2Imp || {}` (line 576). -/
def jsOrEmptyObj : Option JVal → JVal
  | some v => if jsTruthy v then v else .obj []
  | none => .obj []

/-- The per-ad-unit body of the impression-level loop (lines 564-581). -/
def updateAdUnitImp (stretchData : List (String × JVal)) (au : AdUnit) : AdUnit :=
  match lookupField stretchData au.code with
  | some si =>
      if jsTruthy si then
        { au with ortb2Imp := some (mergeDeep (jsOrEmptyObj au.ortb2Imp) (impDataFor si)) }
      else au
  | none => au

/-- `addStretchDataToORTB2` (main copy, lines 513-583).  `vp` is what
`getViewportSize()` returns during the call and `now` what `Date.now()`
returns (the global and bidder branches never both run, so a single call
observes at most one of the two reads of each). -/
def addStretchDataToORTB2 (req : ReqBidsConfig) (stretchData : List (String × JVal))
    (cfg : ModuleConfig) (vp : Viewport) (now : ℚ) : ReqBidsConfig :=
  let g := if globalCondition cfg
    then mergeDeep req.global (stretchPayload vp stretchData now)
    else req.global
  let b := match getBidders cfg with
    | .arr bs =>
        if bs.isEmpty then req.bidder
        else mergeDeep req.bidder
          (.obj (objFromEntries (bs.map (fun x => (jsKeyOf x, stretchPayload vp stretchData now)))))
    | _ => req.bidder
  let us := if impLevelEnabled cfg
    then req.adUnits.map (List.map (updateAdUnitImp stretchData))
    else req.adUnits
  ⟨g, b, us⟩

namespace FirstVersion

/-- The payload of the earlier copy (lines 143-154 and 162-173): no
`viewport` member. -/
def stretchPayload (stretchData : List (String × JVal)) (now : ℚ) : JVal :=
  .obj [("site", .obj [("ext", .obj [("data", .obj [("responsiveStretch",
    .obj [("adUnits", .obj stretchData), ("timestamp", .num (.fin now))])])])])]

/-- The guard of the earlier copy's `banner.wmax` write (line 197):
`stretchInfo.maxAvailableWidth && stretchInfo.maxAvailableWidth !== Infinity`. -/
def bannerCondition (si : JVal) : Bool :=
  match getField si "maxAvailableWidth" with
  | some v => jsTruthy v && !jvalBeq v (.num .posInf)
  | none => false

/-- The impression payload of the earlier copy (lines 188-201): the
`ext.data.responsiveStretch` chain, plus `banner.wmax` when the measurement
has a truthy, finite `maxAvailableWidth`. -/
def impDataFor (si : JVal) : JVal :=
  .obj ([("ext", .obj [("data", .obj [("responsiveStretch", si)])])] ++
    (if bannerCondition si then
      [("banner", .obj [("wmax", (getField si "maxAvailableWidth").getD .null)])]
     else []))

/-- The per-ad-unit body of the earlier copy's impression-level loop
(lines 185-209). -/
def updateAdUnitImp (stretchData : List (String × JVal)) (au : AdUnit) : AdUnit :=
  match lookupField stretchData au.code with
  | some si =>
      if jsTruthy si then
        { au with ortb2Imp := some (mergeDeep (jsOrEmptyObj au.ortb2Imp) (impDataFor si)) }
      else au
  | none => au

/-- `addStretchDataToORTB2` (earlier copy, lines 136-211). -/
def addStretchDataToORTB2 (req : ReqBidsConfig) (stretchData : List (String × JVal))
    (cfg : ModuleConfig) (now : ℚ) : ReqBidsConfig :=
  let g := if globalCondition cfg
    then mergeDeep req.global (stretchPayload stretchData now)
    else req.global
  let b := match getBidders cfg with
    | .arr bs =>
        if bs.isEmpty then req.bidder
        else mergeDeep req.bidder
          (.obj (objFromEntries (bs.map (fun x => (jsKeyOf x, stretchPayload stretchData now)))))
    | _ => req.bidder
  let us := if impLevelEnabled cfg
    then req.adUnits.map (List.map (updateAdUnitImp stretchData))
    else req.adUnits
  ⟨g, b, us⟩

end FirstVersion

/-! ### Collection and the provider entry point -/

/-- `collectResponsiveStretchData` (main copy, lines 483-505).  `locate`
models `findAdSlotElement` (the ordered DOM-query fallback over the live
document); an ad unit with a falsy `code` is skipped, and a slot whose
measurement is `null` contributes nothing. -/
def collectResponsiveStretchData (locate : String → Option ElemGeom) (vp : Viewport)
    (adUnits : List AdUnit) : List (String × JVal) :=
  adUnits.foldl
    (fun sd au =>
      if au.code = "" then sd
      else
        match calculateAdSlotSpace (locate au.code) vp with
        | some sp => setField sd au.code sp
        | none => sd)
    []

/-- Observable events of one `getBidRequestData` cycle. -/
inductive TraceEv where
  | callback
  | logWarnEv
  | logErrorEv
  | logInfoEv
deriving DecidableEq, Repr

/-- `getBidRequestData` (main copy, lines 623-656; the earlier copy at lines
255-285 has the identical control flow without the one-tick `setTimeout`
deferral, which is unobservable in this single-threaded model since the
scheduled body always runs exactly once before the cycle ends).  Host errors
thrown inside the outer try (resolving the ad units), inside the collection,
or inside the ORTB2 merge are modelled by the three oracle flags.  Returns
the event trace and the resulting request object. -/
def getBidRequestData (req : ReqBidsConfig) (pbjsAdUnits : Option (List AdUnit))
    (locate : String → Option ElemGeom) (vp : Viewport) (cfg : ModuleConfig) (now : ℚ)
    (resolveThrows collectThrows mergeThrows : Bool) : List TraceEv × ReqBidsConfig :=
  if resolveThrows then ([.logErrorEv, .callback], req)
  else
    let adUnits := match req.adUnits with
      | some xs => xs
      | none => pbjsAdUnits.getD []
    if adUnits.isEmpty then ([.logWarnEv, .callback], req)
    else
      if collectThrows then ([.logErrorEv, .callback], req)
      else
        let sd := collectResponsiveStretchData locate vp adUnits
        if sd.isEmpty then ([.logWarnEv, .callback], req)
        else if mergeThrows then ([.logErrorEv, .callback], req)
        else ([.logInfoEv, .callback], addStretchDataToORTB2 req sd cfg vp now)

/-! ### The ancestor width walk (`getMaxAvailableWidth`, earlier copy) -/

/-- One element of the `parentElement` chain: its measured width and the
computed `display` and `position` styles. -/
structure AncestorNode where
  width : ℚ
  display : String
  position : String

/-- `getMaxAvailableWidth` (earlier copy, lines 292-308).  `chain` is the
successive values of `current` — the element itself followed by its
ancestors — up to (excluding) `document.body` (or until a null parent);
`Infinity` is `⊤`. -/
def getMaxAvailableWidth (chain : List AncestorNode) : WithTop ℚ :=
  chain.foldl
    (fun maxWidth cur =>
      if cur.display ≠ "contents" ∧ cur.position ≠ "absolute"
      then min maxWidth (cur.width : WithTop ℚ)
      else maxWidth)
    ⊤

/-- Following the spec's words, for comparison with the source: the minimum
width encountered while walking the element's ancestor elements (excluding
the element itself) up to the document root, skipping nodes removed from
flow or absolutely positioned, starting unbounded. -/
def specAncestorMinWidth (chain : List AncestorNode) : WithTop ℚ :=
  (chain.drop 1).foldl
    (fun acc cur =>
      if cur.display ≠ "contents" ∧ cur.position ≠ "absolute"
      then min acc (cur.width : WithTop ℚ)
      else acc)
    ⊤

/-! ### Key paths (for the frame properties of the merge step) -/

/-- Lookup of a nested key path in a value. -/
def lookupPath : JVal → List String → Option JVal
  | v, [] => some v
  | .obj fs, k :: p =>
    match lookupField fs k with
    | some v => lookupPath v p
    | none => none
  | _, _ :: _ => none

/-- Path lookup through an optional value (`none` models an absent object). -/
def optLookupPath (o : Option JVal) (p : List String) : Option JVal :=
  o.bind (fun v => lookupPath v p)

/-- Boolean prefix test on key paths. -/
def isPrefixB : List String → List String → Bool
  | [], _ => true
  | _ :: _, [] => false
  | a :: as, b :: bs => a == b && isPrefixB as bs

/-- Two paths are independent when neither is a prefix of the other; a write
confined to one leaves lookups at paths independent of it unchanged. -/
def pathIndep (p q : List String) : Bool :=
  !isPrefixB p q && !isPrefixB q p

/-- A single-key nesting chain, the shape of every payload this module
merges. -/
def mkChain : List String → JVal → JVal
  | [], v => v
  | k :: ks, v => .obj [(k, mkChain ks v)]

/-! ### Well-formed JavaScript values and similarity up to numeric leaves -/

/-- No duplicated keys in a key list. -/
def nodupKeysB : List String → Bool
  | [] => true
  | k :: ks => !decide (k ∈ ks) && nodupKeysB ks

mutual

/-- A well-formed JavaScript value: every object along the tree has pairwise
distinct keys, as every value produced by a JavaScript program does. -/
def WFb : JVal → Bool
  | .num _ => true
  | .str _ => true
  | .bool _ => true
  | .null => true
  | .arr xs => WFbList xs
  | .obj fs => nodupKeysB (keysOf fs) && WFbFields fs

def WFbList : List JVal → Bool
  | [] => true
  | x :: xs => WFb x && WFbList xs

def WFbFields : List (String × JVal) → Bool
  | [] => true
  | (_, v) :: fs => WFb v && WFbFields fs

end

mutual

/-- Similarity of two values: equal except that finite/special numeric leaves
may differ (the shape of two merge payloads that differ only in their
`timestamp`). -/
def Simb : JVal → JVal → Bool
  | .num _, .num _ => true
  | .str a, .str b => a == b
  | .bool a, .bool b => a == b
  | .null, .null => true
  | .arr xs, .arr ys => jvalBeqList xs ys
  | .obj fs, .obj gs => SimbFields fs gs
  | _, _ => false

def SimbFields : List (String × JVal) → List (String × JVal) → Bool
  | [], [] => true
  | (k, v) :: fs, (k', w) :: gs => k == k' && Simb v w && SimbFields fs gs
  | _, _ => false

end

theorem jvalBeq_refl (v : JVal) : jvalBeq v v = true := (jvalBeq_iff v v).mpr rfl

mutual

theorem simbRefl : ∀ v : JVal, Simb v v = true
  | .num _ => by simp [Simb]
  | .str _ => by simp [Simb]
  | .bool _ => by simp [Simb]
  | .null => by simp [Simb]
  | .arr xs => by simp [Simb, jvalBeqList_iff]
  | .obj fs => by simpa [Simb] using simbFieldsRefl fs

theorem simbFieldsRefl : ∀ fs : List (String × JVal), SimbFields fs fs = true
  | [] => by simp [SimbFields]
  | (k, v) :: fs => by
      simp [SimbFields]
      exact ⟨simbRefl v, simbFieldsRefl fs⟩

end

theorem simbFields_keys : ∀ {fs gs : List (String × JVal)},
    SimbFields fs gs = true → keysOf fs = keysOf gs := by
  intro fs
  induction fs with
  | nil => intro gs h; cases gs with
    | nil => rfl
    | cons g gs => simp [SimbFields] at h
  | cons f fs ih =>
    intro gs h
    cases gs with
    | nil => obtain ⟨k, v⟩ := f; simp [SimbFields] at h
    | cons g gs =>
      obtain ⟨k, v⟩ := f
      obtain ⟨k', w⟩ := g
      simp only [SimbFields, Bool.and_eq_true, beq_iff_eq] at h
      have := ih h.2
      simp only [keysOf, List.map_cons] at this ⊢
      rw [h.1.1, this]

theorem wfbFields_val : ∀ {gs : List (String × JVal)} {k : String} {w : JVal},
    WFbFields gs = true → (k, w) ∈ gs → WFb w = true := by
  intro gs
  induction gs with
  | nil => intro k w _ h; cases h
  | cons g gs ih =>
    intro k w hwf hmem
    obtain ⟨k₁, v₁⟩ := g
    simp only [WFbFields, Bool.and_eq_true] at hwf
    rcases List.mem_cons.mp hmem with h | h
    · cases h; exact hwf.1
    · exact ih hwf.2 h

/-! ### Array union lemmas -/

theorem arrMem_arrInsert_self (acc : List JVal) (x : JVal) :
    arrMem x (arrInsert acc x) = true := by
  unfold arrInsert
  split
  · assumption
  · simp [arrMem, jvalBeq_refl]

theorem arrMem_arrInsert_of (acc : List JVal) (x y : JVal)
    (h : arrMem x acc = true) : arrMem x (arrInsert acc y) = true := by
  unfold arrInsert
  split
  · exact h
  · simp only [arrMem, List.any_append] at *
    simp [h]

theorem arrMem_arrUnion_left : ∀ (s t : List JVal) (x : JVal),
    arrMem x t = true → arrMem x (arrUnion t s) = true := by
  intro s
  induction s with
  | nil => intro t x h; exact h
  | cons y s ih =>
    intro t x h
    simpa [arrUnion] using ih (arrInsert t y) x (arrMem_arrInsert_of t x y h)

theorem arrMem_arrUnion_right : ∀ (s t : List JVal) (x : JVal),
    x ∈ s → arrMem x (arrUnion t s) = true := by
  intro s
  induction s with
  | nil => intro t x h; cases h
  | cons y s ih =>
    intro t x h
    rcases List.mem_cons.mp h with h | h
    · subst h
      simpa [arrUnion] using
        arrMem_arrUnion_left s (arrInsert t x) x (arrMem_arrInsert_self t x)
    · simpa [arrUnion] using ih (arrInsert t y) x h

theorem arrUnion_eq_of_mem : ∀ (s t : List JVal),
    (∀ x ∈ s, arrMem x t = true) → arrUnion t s = t := by
  intro s
  induction s with
  | nil => intro t _; rfl
  | cons y s ih =>
    intro t h
    have hy : arrInsert t y = t := by
      unfold arrInsert
      split
      · rfl
      · exact absurd (h y (by simp)) (by simp_all)
    calc arrUnion t (y :: s) = arrUnion (arrInsert t y) s := rfl
      _ = arrUnion t s := by rw [hy]
      _ = t := ih t (fun x hx => h x (by simp [hx]))

theorem arrUnion_absorb (t s : List JVal) :
    arrUnion (arrUnion t s) s = arrUnion t s :=
  arrUnion_eq_of_mem s (arrUnion t s) (fun x hx => arrMem_arrUnion_right s t x hx)

/-! ### Properties of single-property merges -/

theorem mem_keys_mergeDeepEntry : ∀ (ts : List (String × JVal)) (k : String) (v : JVal),
    k ∈ keysOf (mergeDeepEntry ts k v) := by
  intro ts k v
  induction ts with
  | nil => simp [mergeDeepEntry, keysOf]
  | cons hd tl ih =>
    obtain ⟨k₁, v₁⟩ := hd
    by_cases h : k₁ = k
    · subst h; simp [mergeDeepEntry, keysOf]
    · simpa [mergeDeepEntry, h, keysOf] using Or.inr ih

theorem keys_mergeDeepEntry_mono : ∀ (ts : List (String × JVal)) (k k' : String) (v : JVal),
    k' ∈ keysOf ts → k' ∈ keysOf (mergeDeepEntry ts k v) := by
  intro ts k k' v h
  induction ts with
  | nil => cases h
  | cons hd tl ih =>
    obtain ⟨k₁, v₁⟩ := hd
    by_cases h1 : k₁ = k
    · subst h1
      simpa [mergeDeepEntry, keysOf] using (by simpa [keysOf] using h)
    · rcases (by simpa [keysOf] using h : k' = k₁ ∨ k' ∈ keysOf tl) with h2 | h2
      · simp [mergeDeepEntry, h1, keysOf, h2]
      · simpa [mergeDeepEntry, h1, keysOf] using Or.inr (by simpa [keysOf] using ih h2)

theorem lookupField_mergeDeepEntry_ne {k k' : String} (hne : k' ≠ k) :
    ∀ (ts : List (String × JVal)) (v : JVal),
      lookupField (mergeDeepEntry ts k v) k' = lookupField ts k' := by
  intro ts v
  induction ts with
  | nil => simp [mergeDeepEntry, lookupField, hne.symm]
  | cons hd tl ih =>
    obtain ⟨k₁, v₁⟩ := hd
    by_cases h1 : k₁ = k
    · subst h1
      simp [mergeDeepEntry, lookupField, hne.symm]
    · simp only [mergeDeepEntry, if_neg h1]
      by_cases h2 : k₁ = k'
      · simp [lookupField, h2]
      · simp [lookupField, h2, ih]

theorem lookupField_mergeDeepEntry_self : ∀ (ts : List (String × JVal)) (k : String) (v : JVal),
    lookupField (mergeDeepEntry ts k v) k =
      some (match lookupField ts k with
            | some u => mergeDeep u v
            | none => v) := by
  intro ts k v
  induction ts with
  | nil => simp [mergeDeepEntry, lookupField]
  | cons hd tl ih =>
    obtain ⟨k₁, v₁⟩ := hd
    by_cases h1 : k₁ = k
    · subst h1; simp [mergeDeepEntry, lookupField]
    · simp [mergeDeepEntry, h1, lookupField, ih]

theorem mergeDeepEntry_comm {k k₂ : String} (hne : k ≠ k₂) :
    ∀ (A : List (String × JVal)) (v₂ w : JVal), k ∈ keysOf A →
      mergeDeepEntry (mergeDeepEntry A k₂ v₂) k w
        = mergeDeepEntry (mergeDeepEntry A k w) k₂ v₂ := by
  intro A v₂ w hmem
  induction A with
  | nil => cases hmem
  | cons hd tl ih =>
    obtain ⟨k₁, v₁⟩ := hd
    by_cases h1 : k₁ = k
    · subst h1
      have h2 : ¬(k₁ = k₂) := hne
      simp [mergeDeepEntry, h2]
    · by_cases h2 : k₁ = k₂
      · subst h2
        simp [mergeDeepEntry, h1]
      · have hmem' : k ∈ keysOf tl := by
          rcases (by simpa [keysOf] using hmem : k = k₁ ∨ k ∈ keysOf tl) with h | h
          · exact absurd h.symm h1
          · exact h
        simp [mergeDeepEntry, h1, h2, ih hmem']

theorem mergeDeepFields_nil (t : List (String × JVal)) : mergeDeepFields t [] = t := by
  simp [mergeDeepFields]

theorem mergeDeepFields_cons (t : List (String × JVal)) (k : String) (v : JVal)
    (rest : List (String × JVal)) :
    mergeDeepFields t ((k, v) :: rest) = mergeDeepFields (mergeDeepEntry t k v) rest := by
  simp [mergeDeepFields]

theorem mergeDeepFields_cons_skip : ∀ (gs fs : List (String × JVal)) (k : String) (x : JVal),
    k ∉ keysOf gs →
      mergeDeepFields ((k, x) :: fs) gs = (k, x) :: mergeDeepFields fs gs := by
  intro gs
  induction gs with
  | nil => intro fs k x _; simp [mergeDeepFields_nil]
  | cons hd tl ih =>
    intro fs k x hk
    obtain ⟨k₂, v₂⟩ := hd
    have h2 : ¬(k = k₂) := by
      intro h; exact hk (by simp [keysOf, h])
    have h2' : ¬(k₂ = k) := fun h => h2 h.symm
    have hk' : k ∉ keysOf tl := fun h => hk (by simp [keysOf]; exact Or.inr (by simpa [keysOf] using h))
    calc mergeDeepFields ((k, x) :: fs) ((k₂, v₂) :: tl)
        = mergeDeepFields (mergeDeepEntry ((k, x) :: fs) k₂ v₂) tl := mergeDeepFields_cons _ _ _ _
      _ = mergeDeepFields ((k, x) :: mergeDeepEntry fs k₂ v₂) tl := by
            simp [mergeDeepEntry, h2]
      _ = (k, x) :: mergeDeepFields (mergeDeepEntry fs k₂ v₂) tl := ih _ k x hk'
      _ = (k, x) :: mergeDeepFields fs ((k₂, v₂) :: tl) := by rw [mergeDeepFields_cons]

theorem mergeDeepEntry_after_fields : ∀ (fs A : List (String × JVal)) (k : String) (w : JVal),
    k ∉ keysOf fs → k ∈ keysOf A →
      mergeDeepEntry (mergeDeepFields A fs) k w = mergeDeepFields (mergeDeepEntry A k w) fs := by
  intro fs
  induction fs with
  | nil => intro A k w _ _; simp [mergeDeepFields_nil]
  | cons hd fs' ih =>
    intro A k w hk hA
    obtain ⟨k₂, v₂⟩ := hd
    have hne : k ≠ k₂ := by
      intro h; exact hk (by simp [keysOf, h])
    have hk' : k ∉ keysOf fs' := fun h => hk (by simp [keysOf]; exact Or.inr (by simpa [keysOf] using h))
    calc mergeDeepEntry (mergeDeepFields A ((k₂, v₂) :: fs')) k w
        = mergeDeepEntry (mergeDeepFields (mergeDeepEntry A k₂ v₂) fs') k w := by
            rw [mergeDeepFields_cons]
      _ = mergeDeepFields (mergeDeepEntry (mergeDeepEntry A k₂ v₂) k w) fs' :=
            ih _ k w hk' (keys_mergeDeepEntry_mono A k₂ k v₂ hA)
      _ = mergeDeepFields (mergeDeepEntry (mergeDeepEntry A k w) k₂ v₂) fs' := by
            rw [mergeDeepEntry_comm hne A v₂ w hA]
      _ = mergeDeepFields (mergeDeepEntry A k w) ((k₂, v₂) :: fs') := by
            rw [mergeDeepFields_cons]

theorem mergeDeepEntry_absorb {v w : JVal}
    (h1 : mergeDeep v w = w)
    (h2 : ∀ u, mergeDeep (mergeDeep u v) w = mergeDeep u w) :
    ∀ (ts : List (String × JVal)) (k : String),
      mergeDeepEntry (mergeDeepEntry ts k v) k w = mergeDeepEntry ts k w := by
  intro ts k
  induction ts with
  | nil => simp [mergeDeepEntry, h1]
  | cons hd tl ih =>
    obtain ⟨k₁, u⟩ := hd
    by_cases hk : k₁ = k
    · subst hk; simp [mergeDeepEntry, h2 u]
    · simp [mergeDeepEntry, hk, ih]

/-! ### Absorption: merging a similar payload twice equals merging it once -/

theorem mergeDeepFields_eat
    (gs : List (String × JVal))
    (H : ∀ k w, (k, w) ∈ gs → ∀ v, Simb v w = true →
        mergeDeep v w = w ∧ ∀ u, mergeDeep (mergeDeep u v) w = mergeDeep u w) :
    ∀ fs, SimbFields fs gs = true → nodupKeysB (keysOf gs) = true →
      mergeDeepFields fs gs = gs := by
  induction gs with
  | nil =>
    intro fs hsim _
    cases fs with
    | nil => exact mergeDeepFields_nil []
    | cons f fs => obtain ⟨k, v⟩ := f; simp [SimbFields] at hsim
  | cons g gs ih =>
    intro fs hsim hnd
    obtain ⟨k, w⟩ := g
    cases fs with
    | nil => simp [SimbFields] at hsim
    | cons f fs' =>
      obtain ⟨k₀, v⟩ := f
      simp only [SimbFields, Bool.and_eq_true, beq_iff_eq] at hsim
      obtain ⟨⟨hk, hvw⟩, hrest⟩ := hsim
      subst hk
      simp only [keysOf, List.map_cons, nodupKeysB, Bool.and_eq_true, Bool.not_eq_true',
        decide_eq_false_iff_not] at hnd
      have hnotin : k₀ ∉ keysOf gs := hnd.1
      have hnd' : nodupKeysB (keysOf gs) = true := hnd.2
      have h1 : mergeDeep v w = w := (H k₀ w (by simp) v hvw).1
      have Htail : ∀ k' w', (k', w') ∈ gs → ∀ v', Simb v' w' = true →
          mergeDeep v' w' = w' ∧ ∀ u, mergeDeep (mergeDeep u v') w' = mergeDeep u w' :=
        fun k' w' hm => H k' w' (by simp [hm])
      calc mergeDeepFields ((k₀, v) :: fs') ((k₀, w) :: gs)
          = mergeDeepFields (mergeDeepEntry ((k₀, v) :: fs') k₀ w) gs :=
            mergeDeepFields_cons _ _ _ _
        _ = mergeDeepFields ((k₀, mergeDeep v w) :: fs') gs := by simp [mergeDeepEntry]
        _ = mergeDeepFields ((k₀, w) :: fs') gs := by rw [h1]
        _ = (k₀, w) :: mergeDeepFields fs' gs := mergeDeepFields_cons_skip gs fs' k₀ w hnotin
        _ = (k₀, w) :: gs := by rw [ih Htail fs' hrest hnd']

theorem mergeDeepFields_absorb
    (gs : List (String × JVal))
    (H : ∀ k w, (k, w) ∈ gs → ∀ v, Simb v w = true →
        mergeDeep v w = w ∧ ∀ u, mergeDeep (mergeDeep u v) w = mergeDeep u w) :
    ∀ fs ts, SimbFields fs gs = true → nodupKeysB (keysOf gs) = true →
      mergeDeepFields (mergeDeepFields ts fs) gs = mergeDeepFields ts gs := by
  induction gs with
  | nil =>
    intro fs ts hsim _
    cases fs with
    | nil => simp [mergeDeepFields_nil]
    | cons f fs => obtain ⟨k, v⟩ := f; simp [SimbFields] at hsim
  | cons g gs ih =>
    intro fs ts hsim hnd
    obtain ⟨k, w⟩ := g
    cases fs with
    | nil => simp [SimbFields] at hsim
    | cons f fs' =>
      obtain ⟨k₀, v⟩ := f
      simp only [SimbFields, Bool.and_eq_true, beq_iff_eq] at hsim
      obtain ⟨⟨hk, hvw⟩, hrest⟩ := hsim
      subst hk
      simp only [keysOf, List.map_cons, nodupKeysB, Bool.and_eq_true, Bool.not_eq_true',
        decide_eq_false_iff_not] at hnd
      have hnotin : k₀ ∉ keysOf gs := hnd.1
      have hnd' : nodupKeysB (keysOf gs) = true := hnd.2
      have hkfs' : k₀ ∉ keysOf fs' := by
        rw [simbFields_keys hrest]; exact hnotin
      have hval := H k₀ w (by simp) v hvw
      have Htail : ∀ k' w', (k', w') ∈ gs → ∀ v', Simb v' w' = true →
          mergeDeep v' w' = w' ∧ ∀ u, mergeDeep (mergeDeep u v') w' = mergeDeep u w' :=
        fun k' w' hm => H k' w' (by simp [hm])
      calc mergeDeepFields (mergeDeepFields ts ((k₀, v) :: fs')) ((k₀, w) :: gs)
          = mergeDeepFields (mergeDeepFields (mergeDeepEntry ts k₀ v) fs') ((k₀, w) :: gs) := by
            rw [mergeDeepFields_cons ts k₀ v fs']
        _ = mergeDeepFields
              (mergeDeepEntry (mergeDeepFields (mergeDeepEntry ts k₀ v) fs') k₀ w) gs := by
            rw [mergeDeepFields_cons]
        _ = mergeDeepFields
              (mergeDeepFields (mergeDeepEntry (mergeDeepEntry ts k₀ v) k₀ w) fs') gs := by
            rw [mergeDeepEntry_after_fields fs' _ k₀ w hkfs' (mem_keys_mergeDeepEntry ts k₀ v)]
        _ = mergeDeepFields (mergeDeepFields (mergeDeepEntry ts k₀ w) fs') gs := by
            rw [mergeDeepEntry_absorb hval.1 hval.2]
        _ = mergeDeepFields (mergeDeepEntry ts k₀ w) gs :=
            ih Htail fs' (mergeDeepEntry ts k₀ w) hrest hnd'
        _ = mergeDeepFields ts ((k₀, w) :: gs) := (mergeDeepFields_cons _ _ _ _).symm

theorem mergeDeep_num (t : JVal) (a : JNum) : mergeDeep t (.num a) = .num a := by
  cases t <;> simp [mergeDeep]

theorem mergeDeep_str (t : JVal) (s : String) : mergeDeep t (.str s) = .str s := by
  cases t <;> simp [mergeDeep]

theorem mergeDeep_bool (t : JVal) (b : Bool) : mergeDeep t (.bool b) = .bool b := by
  cases t <;> simp [mergeDeep]

theorem mergeDeep_null (t : JVal) : mergeDeep t .null = .null := by
  cases t <;> simp [mergeDeep]

theorem arrMem_of_mem {x : JVal} {l : List JVal} (h : x ∈ l) : arrMem x l = true := by
  simp only [arrMem, List.any_eq_true]
  exact ⟨x, h, jvalBeq_refl x⟩

theorem mergeDeep_absorb_main :
    ∀ (n : ℕ) (w v : JVal), sizeOf w ≤ n → Simb v w = true → WFb w = true →
      mergeDeep v w = w ∧ ∀ u, mergeDeep (mergeDeep u v) w = mergeDeep u w := by
  intro n
  induction n with
  | zero =>
    intro w v hsz _ _
    exfalso
    cases w <;> simp_arith at hsz
  | succ n ih =>
    intro w v hsz hsim hwf
    cases w with
    | num a =>
      exact ⟨mergeDeep_num v a, fun u => by rw [mergeDeep_num, mergeDeep_num]⟩
    | str s =>
      exact ⟨mergeDeep_str v s, fun u => by rw [mergeDeep_str, mergeDeep_str]⟩
    | bool b =>
      exact ⟨mergeDeep_bool v b, fun u => by rw [mergeDeep_bool, mergeDeep_bool]⟩
    | null =>
      exact ⟨mergeDeep_null v, fun u => by rw [mergeDeep_null, mergeDeep_null]⟩
    | arr ys =>
      cases v <;> simp [Simb] at hsim
      case arr xs =>
        have hxy : xs = ys := (jvalBeqList_iff xs ys).mp hsim
        subst hxy
        have hself : arrUnion xs xs = xs :=
          arrUnion_eq_of_mem xs xs (fun x hx => arrMem_of_mem hx)
        have hA : mergeDeep (.arr xs) (.arr xs) = .arr xs := by
          simp [mergeDeep, hself]
        refine ⟨hA, fun u => ?_⟩
        cases u with
        | arr a => simp [mergeDeep, arrUnion_absorb a xs]
        | num _ => simp [mergeDeep, hself]
        | str _ => simp [mergeDeep, hself]
        | bool _ => simp [mergeDeep, hself]
        | null => simp [mergeDeep, hself]
        | obj t => simp [mergeDeep, hself]
    | obj gs =>
      cases v <;> simp [Simb] at hsim
      case obj fs =>
        simp only [WFb, Bool.and_eq_true] at hwf
        have hnd : nodupKeysB (keysOf gs) = true := hwf.1
        have hwff : WFbFields gs = true := hwf.2
        have H : ∀ k w', (k, w') ∈ gs → ∀ v', Simb v' w' = true →
            mergeDeep v' w' = w' ∧ ∀ u, mergeDeep (mergeDeep u v') w' = mergeDeep u w' := by
          intro k w' hm v' hs
          have hlt : sizeOf (k, w') < sizeOf gs := List.sizeOf_lt_of_mem hm
          have hsz' : sizeOf w' ≤ n := by
            have h1 : sizeOf (k, w') = 1 + sizeOf k + sizeOf w' := by simp
            have h2 : sizeOf (JVal.obj gs) = 1 + sizeOf gs := by simp
            omega
          exact ih w' v' hsz' hs (wfbFields_val hwff hm)
        have hA : mergeDeepFields fs gs = gs := mergeDeepFields_eat gs H fs hsim hnd
        refine ⟨by simp [mergeDeep, hA], fun u => ?_⟩
        cases u with
        | obj ts => simp [mergeDeep]; exact mergeDeepFields_absorb gs H fs ts hsim hnd
        | num _ => simp [mergeDeep, hA]
        | str _ => simp [mergeDeep, hA]
        | bool _ => simp [mergeDeep, hA]
        | null => simp [mergeDeep, hA]
        | arr _ => simp [mergeDeep, hA]

/-- Merging a payload `w` on top of a previous merge of a similar payload `v`
(equal except for numeric leaves, e.g. the timestamp) gives the same tree as
merging `w` alone, for every target. -/
theorem mergeDeep_absorb {v w : JVal} (hsim : Simb v w = true) (hwf : WFb w = true)
    (u : JVal) : mergeDeep (mergeDeep u v) w = mergeDeep u w :=
  (mergeDeep_absorb_main (sizeOf w) w v (Nat.le_refl _) hsim hwf).2 u

/-! ### Frame lemmas: chain-shaped merges only touch their own key path -/

theorem lookupPath_non_obj {t : JVal} (h : ∀ fs, t ≠ .obj fs) (k : String)
    (p : List String) : lookupPath t (k :: p) = none := by
  cases t <;> simp [lookupPath]
  exact absurd rfl (h _)

theorem lookupField_mem : ∀ {fs : List (String × JVal)} {k : String} {v : JVal},
    lookupField fs k = some v → (k, v) ∈ fs := by
  intro fs
  induction fs with
  | nil => intro k v h; simp [lookupField] at h
  | cons hd tl ih =>
    intro k v h
    obtain ⟨k₁, v₁⟩ := hd
    by_cases h1 : k₁ = k
    · subst h1
      simp [lookupField] at h
      simp [h]
    · simp [lookupField, h1] at h
      exact List.mem_cons_of_mem _ (ih h)

theorem chain_lookup_none : ∀ (ks p : List String) (leaf : JVal),
    isPrefixB ks p = false → isPrefixB p ks = false →
    lookupPath (mkChain ks leaf) p = none := by
  intro ks
  induction ks with
  | nil => intro p leaf h1 _; simp [isPrefixB] at h1
  | cons k ks ih =>
    intro p leaf h1 h2
    cases p with
    | nil => simp [isPrefixB] at h2
    | cons k' p' =>
      by_cases hk : k = k'
      · subst hk
        simp only [isPrefixB, beq_self_eq_true, Bool.true_and] at h1 h2
        simp [mkChain, lookupPath, lookupField, ih p' leaf h1 h2]
      · have : ¬(k = k') := hk
        simp [mkChain, lookupPath, lookupField, this]

theorem lookupPath_mergeDeep_chain : ∀ (ks : List String) (leaf t : JVal) (p : List String),
    isPrefixB ks p = false → isPrefixB p ks = false →
    lookupPath (mergeDeep t (mkChain ks leaf)) p = lookupPath t p := by
  intro ks
  induction ks with
  | nil => intro leaf t p h1 _; simp [isPrefixB] at h1
  | cons k ks ih =>
    intro leaf t p h1 h2
    cases p with
    | nil => simp [isPrefixB] at h2
    | cons k' p' =>
      cases t with
      | obj ts =>
        have hstep : mergeDeep (.obj ts) (mkChain (k :: ks) leaf)
            = .obj (mergeDeepEntry ts k (mkChain ks leaf)) := by
          simp [mkChain, mergeDeep, mergeDeepFields_cons, mergeDeepFields_nil]
        rw [hstep]
        by_cases hk : k' = k
        · subst hk
          simp only [isPrefixB, beq_self_eq_true, Bool.true_and] at h1 h2
          rw [show ∀ fs, lookupPath (JVal.obj fs) (k' :: p') =
              (match lookupField fs k' with
               | some v => lookupPath v p'
               | none => none) from fun fs => rfl]
          rw [show lookupPath (JVal.obj ts) (k' :: p') =
              (match lookupField ts k' with
               | some v => lookupPath v p'
               | none => none) from rfl]
          rw [lookupField_mergeDeepEntry_self]
          cases hu : lookupField ts k' with
          | some u => simp [ih leaf u p' h1 h2]
          | none => simp [chain_lookup_none ks p' leaf h1 h2]
        · rw [show ∀ fs, lookupPath (JVal.obj fs) (k' :: p') =
              (match lookupField fs k' with
               | some v => lookupPath v p'
               | none => none) from fun fs => rfl]
          rw [show lookupPath (JVal.obj ts) (k' :: p') =
              (match lookupField ts k' with
               | some v => lookupPath v p'
               | none => none) from rfl]
          rw [lookupField_mergeDeepEntry_ne hk]
      | num a =>
        have hstep : mergeDeep (.num a) (mkChain (k :: ks) leaf)
            = mkChain (k :: ks) leaf := by simp [mkChain, mergeDeep]
        rw [hstep, chain_lookup_none (k :: ks) (k' :: p') leaf h1 h2]
        simp [lookupPath]
      | str s =>
        have hstep : mergeDeep (.str s) (mkChain (k :: ks) leaf)
            = mkChain (k :: ks) leaf := by simp [mkChain, mergeDeep]
        rw [hstep, chain_lookup_none (k :: ks) (k' :: p') leaf h1 h2]
        simp [lookupPath]
      | bool b =>
        have hstep : mergeDeep (.bool b) (mkChain (k :: ks) leaf)
            = mkChain (k :: ks) leaf := by simp [mkChain, mergeDeep]
        rw [hstep, chain_lookup_none (k :: ks) (k' :: p') leaf h1 h2]
        simp [lookupPath]
      | null =>
        have hstep : mergeDeep .null (mkChain (k :: ks) leaf)
            = mkChain (k :: ks) leaf := by simp [mkChain, mergeDeep]
        rw [hstep, chain_lookup_none (k :: ks) (k' :: p') leaf h1 h2]
        simp [lookupPath]
      | arr xs =>
        have hstep : mergeDeep (.arr xs) (mkChain (k :: ks) leaf)
            = mkChain (k :: ks) leaf := by simp [mkChain, mergeDeep]
        rw [hstep, chain_lookup_none (k :: ks) (k' :: p') leaf h1 h2]
        simp [lookupPath]

theorem lookupPath_obj_cons (fs : List (String × JVal)) (k : String) (p : List String) :
    lookupPath (JVal.obj fs) (k :: p)
      = (match lookupField fs k with
         | some v => lookupPath v p
         | none => none) := rfl

theorem lookupPath_obj_mergeDeepEntry_chain
    (ks : List String) (leaf : JVal) (ts : List (String × JVal)) (k : String)
    (p : List String)
    (h1 : isPrefixB (k :: ks) p = false) (h2 : isPrefixB p (k :: ks) = false) :
    lookupPath (.obj (mergeDeepEntry ts k (mkChain ks leaf))) p
      = lookupPath (.obj ts) p := by
  cases p with
  | nil => simp [isPrefixB] at h2
  | cons k' p' =>
    by_cases hk : k' = k
    · subst hk
      simp only [isPrefixB, beq_self_eq_true, Bool.true_and] at h1 h2
      rw [lookupPath_obj_cons, lookupPath_obj_cons, lookupField_mergeDeepEntry_self]
      cases hu : lookupField ts k' with
      | some u => simp [lookupPath_mergeDeep_chain ks leaf u p' h1 h2]
      | none => simp [chain_lookup_none ks p' leaf h1 h2]
    · rw [lookupPath_obj_cons, lookupPath_obj_cons, lookupField_mergeDeepEntry_ne hk]

/-- Each entry of a merged object is a single-key chain whose full path is
independent of the observation path `p`. -/
def ChainEntriesFor (entries : List (String × JVal)) (p : List String) : Prop :=
  ∀ e ∈ entries, ∃ ks leaf, e.2 = mkChain ks leaf ∧
    isPrefixB (e.1 :: ks) p = false ∧ isPrefixB p (e.1 :: ks) = false

theorem lookupPath_obj_mergeDeepFields_chains :
    ∀ (entries : List (String × JVal)) (ts : List (String × JVal)) (p : List String),
      ChainEntriesFor entries p →
      lookupPath (.obj (mergeDeepFields ts entries)) p = lookupPath (.obj ts) p := by
  intro entries
  induction entries with
  | nil => intro ts p _; rw [mergeDeepFields_nil]
  | cons e rest ih =>
    intro ts p hch
    obtain ⟨k, c⟩ := e
    obtain ⟨ks, leaf, hc, hp1, hp2⟩ := hch (k, c) (by simp)
    subst hc
    calc lookupPath (.obj (mergeDeepFields ts ((k, mkChain ks leaf) :: rest))) p
        = lookupPath (.obj (mergeDeepFields (mergeDeepEntry ts k (mkChain ks leaf)) rest)) p := by
          rw [mergeDeepFields_cons]
      _ = lookupPath (.obj (mergeDeepEntry ts k (mkChain ks leaf))) p :=
          ih _ p (fun e he => hch e (List.mem_cons_of_mem _ he))
      _ = lookupPath (.obj ts) p :=
          lookupPath_obj_mergeDeepEntry_chain ks leaf ts k p hp1 hp2

/-- The central frame property: merging an object whose entries are all
single-key chains leaves the lookup of every independent path unchanged,
for an arbitrary target value. -/
theorem lookupPath_mergeDeep_chains
    (entries : List (String × JVal)) (t : JVal) (p : List String)
    (hne : entries ≠ []) (hch : ChainEntriesFor entries p) :
    lookupPath (mergeDeep t (.obj entries)) p = lookupPath t p := by
  cases t with
  | obj ts =>
    have hstep : mergeDeep (.obj ts) (.obj entries) = .obj (mergeDeepFields ts entries) := by
      simp [mergeDeep]
    rw [hstep]
    exact lookupPath_obj_mergeDeepFields_chains entries ts p hch
  | num a =>
    cases p with
    | nil =>
      obtain ⟨e, he⟩ := List.exists_mem_of_ne_nil entries hne
      obtain ⟨ks, leaf, _, _, hp2⟩ := hch e he
      simp [isPrefixB] at hp2
    | cons k' p' =>
      rw [show mergeDeep (.num a) (.obj entries) = .obj entries by simp [mergeDeep]]
      rw [lookupPath_obj_cons]
      rw [lookupPath_non_obj (by intro fs h; cases h) k' p']
      cases hu : lookupField entries k' with
      | none => rfl
      | some c =>
        obtain ⟨ks, leaf, hc, hp1, hp2⟩ := hch (k', c) (lookupField_mem hu)
        subst hc
        simp only [isPrefixB, beq_self_eq_true, Bool.true_and] at hp1 hp2
        simp [chain_lookup_none ks p' leaf hp1 hp2]
  | str s =>
    cases p with
    | nil =>
      obtain ⟨e, he⟩ := List.exists_mem_of_ne_nil entries hne
      obtain ⟨ks, leaf, _, _, hp2⟩ := hch e he
      simp [isPrefixB] at hp2
    | cons k' p' =>
      rw [show mergeDeep (.str s) (.obj entries) = .obj entries by simp [mergeDeep]]
      rw [lookupPath_obj_cons]
      rw [lookupPath_non_obj (by intro fs h; cases h) k' p']
      cases hu : lookupField entries k' with
      | none => rfl
      | some c =>
        obtain ⟨ks, leaf, hc, hp1, hp2⟩ := hch (k', c) (lookupField_mem hu)
        subst hc
        simp only [isPrefixB, beq_self_eq_true, Bool.true_and] at hp1 hp2
        simp [chain_lookup_none ks p' leaf hp1 hp2]
  | bool b =>
    cases p with
    | nil =>
      obtain ⟨e, he⟩ := List.exists_mem_of_ne_nil entries hne
      obtain ⟨ks, leaf, _, _, hp2⟩ := hch e he
      simp [isPrefixB] at hp2
    | cons k' p' =>
      rw [show mergeDeep (.bool b) (.obj entries) = .obj entries by simp [mergeDeep]]
      rw [lookupPath_obj_cons]
      rw [lookupPath_non_obj (by intro fs h; cases h) k' p']
      cases hu : lookupField entries k' with
      | none => rfl
      | some c =>
        obtain ⟨ks, leaf, hc, hp1, hp2⟩ := hch (k', c) (lookupField_mem hu)
        subst hc
        simp only [isPrefixB, beq_self_eq_true, Bool.true_and] at hp1 hp2
        simp [chain_lookup_none ks p' leaf hp1 hp2]
  | null =>
    cases p with
    | nil =>
      obtain ⟨e, he⟩ := List.exists_mem_of_ne_nil entries hne
      obtain ⟨ks, leaf, _, _, hp2⟩ := hch e he
      simp [isPrefixB] at hp2
    | cons k' p' =>
      rw [show mergeDeep .null (.obj entries) = .obj entries by simp [mergeDeep]]
      rw [lookupPath_obj_cons]
      rw [lookupPath_non_obj (by intro fs h; cases h) k' p']
      cases hu : lookupField entries k' with
      | none => rfl
      | some c =>
        obtain ⟨ks, leaf, hc, hp1, hp2⟩ := hch (k', c) (lookupField_mem hu)
        subst hc
        simp only [isPrefixB, beq_self_eq_true, Bool.true_and] at hp1 hp2
        simp [chain_lookup_none ks p' leaf hp1 hp2]
  | arr xs =>
    cases p with
    | nil =>
      obtain ⟨e, he⟩ := List.exists_mem_of_ne_nil entries hne
      obtain ⟨ks, leaf, _, _, hp2⟩ := hch e he
      simp [isPrefixB] at hp2
    | cons k' p' =>
      rw [show mergeDeep (.arr xs) (.obj entries) = .obj entries by simp [mergeDeep]]
      rw [lookupPath_obj_cons]
      rw [lookupPath_non_obj (by intro fs h; cases h) k' p']
      cases hu : lookupField entries k' with
      | none => rfl
      | some c =>
        obtain ⟨ks, leaf, hc, hp1, hp2⟩ := hch (k', c) (lookupField_mem hu)
        subst hc
        simp only [isPrefixB, beq_self_eq_true, Bool.true_and] at hp1 hp2
        simp [chain_lookup_none ks p' leaf hp1 hp2]

/-! ### Payload facts used by the idempotence proof -/

theorem simb_stretchPayload (vp : Viewport) (sd : List (String × JVal)) (n₁ n₂ : ℚ) :
    Simb (stretchPayload vp sd n₁) (stretchPayload vp sd n₂) = true := by
  simp [stretchPayload, Simb, SimbFields, getViewportSizeJ, simbFieldsRefl]

theorem wfb_stretchPayload (vp : Viewport) (sd : List (String × JVal)) (n : ℚ)
    (hsd : WFb (.obj sd) = true) :
    WFb (stretchPayload vp sd n) = true := by
  simp [stretchPayload, WFb, WFbFields, nodupKeysB, keysOf, getViewportSizeJ]
  simpa [WFb] using hsd

theorem jsTruthy_mergeDeep_obj (t : JVal) (s : List (String × JVal)) :
    jsTruthy (mergeDeep t (.obj s)) = true := by
  cases t <;> simp [mergeDeep, jsTruthy]

theorem lookupField_wfb {sd : List (String × JVal)} {k : String} {si : JVal}
    (hsd : WFb (.obj sd) = true) (h : lookupField sd k = some si) : WFb si = true := by
  simp only [WFb, Bool.and_eq_true] at hsd
  exact wfbFields_val hsd.2 (lookupField_mem h)

theorem wfb_impDataFor {si : JVal} (h : WFb si = true) :
    WFb (impDataFor si) = true := by
  simp [impDataFor, WFb, WFbFields, nodupKeysB, keysOf, h]

/-! ### `objFromEntries` invariants -/

theorem keysOf_setField_mem : ∀ (A : List (String × JVal)) (k : String) (v : JVal),
    k ∈ keysOf A → keysOf (setField A k v) = keysOf A := by
  intro A
  induction A with
  | nil => intro k v h; cases h
  | cons hd tl ih =>
    intro k v h
    obtain ⟨k₁, v₁⟩ := hd
    by_cases h1 : k₁ = k
    · subst h1; simp [setField, keysOf]
    · have h2 : k ∈ keysOf tl := by
        rcases (by simpa [keysOf] using h : k = k₁ ∨ k ∈ keysOf tl) with h2 | h2
        · exact absurd h2.symm h1
        · exact h2
      have H := ih k v h2
      simp only [keysOf] at H
      simp [setField, h1, keysOf, H]

theorem keysOf_setField_not_mem : ∀ (A : List (String × JVal)) (k : String) (v : JVal),
    k ∉ keysOf A → keysOf (setField A k v) = keysOf A ++ [k] := by
  intro A
  induction A with
  | nil => intro k v _; simp [setField, keysOf]
  | cons hd tl ih =>
    intro k v h
    obtain ⟨k₁, v₁⟩ := hd
    have h1 : ¬(k₁ = k) := by
      intro h1; exact h (by simp [keysOf, h1])
    have h2 : k ∉ keysOf tl := fun hh => h (by simp [keysOf]; exact Or.inr (by simpa [keysOf] using hh))
    have H := ih k v h2
    simp only [keysOf] at H
    simp [setField, h1, keysOf, H]

theorem nodupKeysB_append_single : ∀ (ks : List String) (k : String),
    nodupKeysB ks = true → k ∉ ks → nodupKeysB (ks ++ [k]) = true := by
  intro ks
  induction ks with
  | nil => intro k _ _; simp [nodupKeysB]
  | cons a ks ih =>
    intro k hnd hk
    simp only [nodupKeysB, Bool.and_eq_true, Bool.not_eq_true', decide_eq_false_iff_not] at hnd
    have hka : ¬(a = k) := by
      intro h; exact hk (by simp [h])
    have hk' : k ∉ ks := fun h => hk (by simp [h])
    simp only [List.cons_append, nodupKeysB, Bool.and_eq_true, Bool.not_eq_true',
      decide_eq_false_iff_not]
    constructor
    · intro hmem
      rcases List.mem_append.mp hmem with h | h
      · exact hnd.1 h
      · exact hka (List.mem_singleton.mp h)
    · exact ih k hnd.2 hk'

theorem nodup_setField (A : List (String × JVal)) (k : String) (v : JVal)
    (h : nodupKeysB (keysOf A) = true) : nodupKeysB (keysOf (setField A k v)) = true := by
  by_cases hk : k ∈ keysOf A
  · rw [keysOf_setField_mem A k v hk]; exact h
  · rw [keysOf_setField_not_mem A k v hk]
    exact nodupKeysB_append_single (keysOf A) k h hk

theorem wfbFields_setField : ∀ (A : List (String × JVal)) (k : String) (v : JVal),
    WFbFields A = true → WFb v = true → WFbFields (setField A k v) = true := by
  intro A k v hA hv
  induction A with
  | nil => simp [setField, WFbFields, hv]
  | cons hd tl ih =>
    obtain ⟨k₁, v₁⟩ := hd
    simp only [WFbFields, Bool.and_eq_true] at hA
    by_cases h1 : k₁ = k
    · subst h1; simp [setField, WFbFields, hv, hA.2]
    · simp [setField, h1, WFbFields, hA.1, ih hA.2]

theorem simbFields_setField : ∀ (A B : List (String × JVal)) (k : String) (v w : JVal),
    SimbFields A B = true → Simb v w = true →
    SimbFields (setField A k v) (setField B k w) = true := by
  intro A
  induction A with
  | nil =>
    intro B k v w hAB hvw
    cases B with
    | nil => simp [setField, SimbFields, hvw]
    | cons b bs => obtain ⟨k₁, v₁⟩ := b; simp [SimbFields] at hAB
  | cons a as ih =>
    intro B k v w hAB hvw
    obtain ⟨k₁, v₁⟩ := a
    cases B with
    | nil => simp [SimbFields] at hAB
    | cons b bs =>
      obtain ⟨k₂, v₂⟩ := b
      simp only [SimbFields, Bool.and_eq_true, beq_iff_eq] at hAB
      obtain ⟨⟨hk, hv12⟩, hrest⟩ := hAB
      subst hk
      by_cases h1 : k₁ = k
      · subst h1; simp [setField, SimbFields, hvw, hrest]
      · simp [setField, h1, SimbFields, hv12, ih bs k v w hrest hvw]

theorem nodup_objFromEntries_general : ∀ (l A : List (String × JVal)),
    nodupKeysB (keysOf A) = true →
    nodupKeysB (keysOf (l.foldl (fun acc p => setField acc p.1 p.2) A)) = true := by
  intro l
  induction l with
  | nil => intro A h; exact h
  | cons e rest ih =>
    intro A h
    exact ih (setField A e.1 e.2) (nodup_setField A e.1 e.2 h)

theorem nodup_objFromEntries (l : List (String × JVal)) :
    nodupKeysB (keysOf (objFromEntries l)) = true :=
  nodup_objFromEntries_general l [] (by simp [keysOf, nodupKeysB])

theorem wfbFields_objFromEntries_general : ∀ (l A : List (String × JVal)),
    WFbFields A = true → (∀ e ∈ l, WFb e.2 = true) →
    WFbFields (l.foldl (fun acc p => setField acc p.1 p.2) A) = true := by
  intro l
  induction l with
  | nil => intro A h _; exact h
  | cons e rest ih =>
    intro A h hl
    exact ih (setField A e.1 e.2)
      (wfbFields_setField A e.1 e.2 h (hl e (by simp)))
      (fun e' he' => hl e' (by simp [he']))

theorem simbFields_objFromEntries_general :
    ∀ (bs : List JVal) (f : JVal → String) (P₁ P₂ : JVal) (A B : List (String × JVal)),
      SimbFields A B = true → Simb P₁ P₂ = true →
      SimbFields
        ((bs.map (fun x => (f x, P₁))).foldl (fun acc p => setField acc p.1 p.2) A)
        ((bs.map (fun x => (f x, P₂))).foldl (fun acc p => setField acc p.1 p.2) B) = true := by
  intro bs
  induction bs with
  | nil => intro f P₁ P₂ A B hAB _; exact hAB
  | cons x rest ih =>
    intro f P₁ P₂ A B hAB hP
    simp only [List.map_cons, List.foldl_cons]
    exact ih f P₁ P₂ _ _ (simbFields_setField A B (f x) P₁ P₂ hAB hP) hP

theorem jsOrEmptyObj_merged (base : JVal) (si : JVal) :
    jsOrEmptyObj (some (mergeDeep base (impDataFor si))) = mergeDeep base (impDataFor si) := by
  have h : jsTruthy (mergeDeep base (impDataFor si)) = true := by
    rw [show impDataFor si = .obj [("ext", .obj [("data", .obj [("responsiveStretch", si)])])]
      from rfl]
    exact jsTruthy_mergeDeep_obj _ _
  simp [jsOrEmptyObj, h]

theorem updateAdUnitImp_idem (sd : List (String × JVal)) (hsd : WFb (.obj sd) = true)
    (au : AdUnit) :
    updateAdUnitImp sd (updateAdUnitImp sd au) = updateAdUnitImp sd au := by
  cases hsi : lookupField sd au.code with
  | none => simp [updateAdUnitImp, hsi]
  | some si =>
    by_cases ht : jsTruthy si = true
    · have hinner : updateAdUnitImp sd au =
          { au with ortb2Imp := some (mergeDeep (jsOrEmptyObj au.ortb2Imp) (impDataFor si)) } := by
        simp [updateAdUnitImp, hsi, ht]
      rw [hinner]
      have hwfi : WFb (impDataFor si) = true := wfb_impDataFor (lookupField_wfb hsd hsi)
      simp only [updateAdUnitImp, hsi, ht, if_pos rfl]
      simp [jsOrEmptyObj_merged, mergeDeep_absorb (simbRefl (impDataFor si)) hwfi]
    · simp [updateAdUnitImp, hsi, ht]

theorem simb_bidderConfig (bs : List JVal) (vp : Viewport) (sd : List (String × JVal))
    (n₁ n₂ : ℚ) :
    Simb (.obj (objFromEntries (bs.map (fun x => (jsKeyOf x, stretchPayload vp sd n₁)))))
         (.obj (objFromEntries (bs.map (fun x => (jsKeyOf x, stretchPayload vp sd n₂)))))
      = true := by
  rw [show ∀ fs gs, Simb (.obj fs) (.obj gs) = SimbFields fs gs from fun _ _ => by simp [Simb]]
  exact simbFields_objFromEntries_general bs jsKeyOf _ _ [] []
    (by simp [SimbFields]) (simb_stretchPayload vp sd n₁ n₂)

theorem wfb_bidderConfig (bs : List JVal) (vp : Viewport) (sd : List (String × JVal))
    (n : ℚ) (hsd : WFb (.obj sd) = true) :
    WFb (.obj (objFromEntries (bs.map (fun x => (jsKeyOf x, stretchPayload vp sd n)))))
      = true := by
  rw [show ∀ fs, WFb (JVal.obj fs) = (nodupKeysB (keysOf fs) && WFbFields fs)
    from fun _ => by simp [WFb]]
  rw [Bool.and_eq_true]
  refine ⟨nodup_objFromEntries _, ?_⟩
  refine wfbFields_objFromEntries_general _ [] (by simp [WFbFields]) ?_
  intro e he
  obtain ⟨x, _, hx⟩ := List.mem_map.mp he
  rw [← hx]
  exact wfb_stretchPayload vp sd n hsd

/-- C3: applying `addStretchDataToORTB2` twice with the identical measurement
map and configuration yields the same augmentation tree as applying it once,
disregarding the timestamp leaves: the single application is taken at the
second call's `Date.now()` value, so the `adUnits` mappings, the bidder
payloads and the per-impression payloads agree with no duplicated entries.
The measurement map is a JavaScript object, hence well-formed (`WFb`). -/
theorem spec_C3_merge_idempotent
    (req : ReqBidsConfig) (sd : List (String × JVal)) (cfg : ModuleConfig)
    (vp : Viewport) (now₁ now₂ : ℚ) (hsd : WFb (.obj sd) = true) :
    addStretchDataToORTB2 (addStretchDataToORTB2 req sd cfg vp now₁) sd cfg vp now₂
      = addStretchDataToORTB2 req sd cfg vp now₂ := by
  obtain ⟨g, b, us⟩ := req
  have hwfP : WFb (stretchPayload vp sd now₂) = true := wfb_stretchPayload vp sd now₂ hsd
  have hsimP : Simb (stretchPayload vp sd now₁) (stretchPayload vp sd now₂) = true :=
    simb_stretchPayload vp sd now₁ now₂
  unfold addStretchDataToORTB2
  dsimp only
  simp only [ReqBidsConfig.mk.injEq]
  refine ⟨?_, ?_, ?_⟩
  · by_cases hc : globalCondition cfg = true
    · simp only [hc, if_true]
      exact mergeDeep_absorb hsimP hwfP g
    · simp [hc]
  · cases hbs : getBidders cfg with
    | arr bs =>
      by_cases hbe : bs.isEmpty = true
      · simp [hbe]
      · simp only [Bool.not_eq_true] at hbe
        simp only [hbe]
        have hsimB := simb_bidderConfig bs vp sd now₁ now₂
        have hwfB := wfb_bidderConfig bs vp sd now₂ hsd
        simp [hbe, mergeDeep_absorb hsimB hwfB]
    | num a => rfl
    | str s => rfl
    | bool b2 => rfl
    | null => rfl
    | obj fs => rfl
  · by_cases hi : impLevelEnabled cfg = true
    · simp only [hi, if_true]
      have hlist : ∀ l : List AdUnit,
          List.map (updateAdUnitImp sd) (List.map (updateAdUnitImp sd) l)
            = List.map (updateAdUnitImp sd) l := by
        intro l
        rw [List.map_map]
        exact List.map_congr_left (fun a _ => updateAdUnitImp_idem sd hsd a)
      cases us with
      | none => rfl
      | some l => simp [hlist]
    · simp [hi]

theorem spec_C3_merge_idempotent_witness :
    addStretchDataToORTB2
        (addStretchDataToORTB2
          ⟨.null, .null, some [⟨"ad-1", none⟩]⟩
          [("ad-1", .obj [("width", .num (.fin 300))])] ⟨none⟩ ⟨1920, 1080⟩ 0)
        [("ad-1", .obj [("width", .num (.fin 300))])] ⟨none⟩ ⟨1920, 1080⟩ 1
      = addStretchDataToORTB2
          ⟨.null, .null, some [⟨"ad-1", none⟩]⟩
          [("ad-1", .obj [("width", .num (.fin 300))])] ⟨none⟩ ⟨1920, 1080⟩ 1 :=
  spec_C3_merge_idempotent _ _ _ _ 0 1
    (by simp [WFb, WFbFields, nodupKeysB, keysOf])

/-- C1: on the bounding box `{width: 300, height: 250, top: 100, left: 50,
right: 350, bottom: 350}` in a `1920 × 1080` viewport, `calculateAdSlotSpace`
returns a record with `stretchLeft = 50`, `stretchRight = 1570`,
`stretchUp = 100`, `stretchDown = 730`, `viewportWidthPercentage = 16`,
`viewportHeightPercentage = 23` and `isVisible = true`. -/
theorem spec_C1_measurement_example :
    optGetField (calculateAdSlotSpace
      (some ⟨some ⟨50, 100, 300, 250⟩, none⟩) ⟨1920, 1080⟩) "stretchLeft"
        = some (.num (.fin 50))
    ∧ optGetField (calculateAdSlotSpace
      (some ⟨some ⟨50, 100, 300, 250⟩, none⟩) ⟨1920, 1080⟩) "stretchRight"
        = some (.num (.fin 1570))
    ∧ optGetField (calculateAdSlotSpace
      (some ⟨some ⟨50, 100, 300, 250⟩, none⟩) ⟨1920, 1080⟩) "stretchUp"
        = some (.num (.fin 100))
    ∧ optGetField (calculateAdSlotSpace
      (some ⟨some ⟨50, 100, 300, 250⟩, none⟩) ⟨1920, 1080⟩) "stretchDown"
        = some (.num (.fin 730))
    ∧ optGetField (calculateAdSlotSpace
      (some ⟨some ⟨50, 100, 300, 250⟩, none⟩) ⟨1920, 1080⟩) "viewportWidthPercentage"
        = some (.num (.fin 16))
    ∧ optGetField (calculateAdSlotSpace
      (some ⟨some ⟨50, 100, 300, 250⟩, none⟩) ⟨1920, 1080⟩) "viewportHeightPercentage"
        = some (.num (.fin 23))
    ∧ optGetField (calculateAdSlotSpace
      (some ⟨some ⟨50, 100, 300, 250⟩, none⟩) ⟨1920, 1080⟩) "isVisible"
        = some (.bool true) := by
  refine ⟨?_, ?_, ?_, ?_, ?_, ?_, ?_⟩ <;> with_unfolding_all rfl

/-- C2: whenever the bounding box lies inside the viewport
(`right ≤ viewport.width`, `bottom ≤ viewport.height`, `left ≥ 0`,
`top ≥ 0`), the produced record's `totalAvailableWidth` equals
`viewport.width` exactly and `totalAvailableHeight` equals `viewport.height`
exactly. -/
theorem spec_C2_total_available_space
    (r : DOMRect) (pr : Option (Option DOMRect)) (vp : Viewport) (m : JVal)
    (h1 : r.right ≤ (vp.width : ℚ)) (h2 : r.bottom ≤ (vp.height : ℚ))
    (h3 : 0 ≤ r.left) (h4 : 0 ≤ r.top)
    (hm : calculateAdSlotSpace (some ⟨some r, pr⟩) vp = some m) :
    getField m "totalAvailableWidth" = some (.num (.fin ((vp.width : ℤ) : ℚ)))
    ∧ getField m "totalAvailableHeight" = some (.num (.fin ((vp.height : ℤ) : ℚ))) := by
  have hw : roundQ (r.width + r.left + ((vp.width : ℚ) - r.right)) = ((vp.width : ℤ) : ℚ) := by
    have he : r.width + r.left + ((vp.width : ℚ) - r.right) = ((vp.width : ℤ) : ℚ) := by
      simp [DOMRect.left, DOMRect.right]; ring
    rw [he, roundQ_intCast]
  have hh : roundQ (r.height + r.top + ((vp.height : ℚ) - r.bottom)) = ((vp.height : ℤ) : ℚ) := by
    have he : r.height + r.top + ((vp.height : ℚ) - r.bottom) = ((vp.height : ℤ) : ℚ) := by
      simp [DOMRect.top, DOMRect.bottom]; ring
    rw [he, roundQ_intCast]
  cases pr with
  | none =>
    simp only [calculateAdSlotSpace, Option.some.injEq] at hm
    subst hm
    constructor
    · simp [mkSpace, getField, lookupField, hw]
    · simp [mkSpace, getField, lookupField, hh]
  | some po =>
    cases po with
    | none => simp [calculateAdSlotSpace] at hm
    | some p =>
      simp only [calculateAdSlotSpace, Option.some.injEq] at hm
      subst hm
      constructor
      · simp [mkSpace, getField, lookupField, hw]
      · simp [mkSpace, getField, lookupField, hh]

theorem spec_C2_total_available_space_witness :
    getField (mkSpace ⟨50, 100, 300, 250⟩ ⟨1920, 1080⟩ .null .null) "totalAvailableWidth"
        = some (.num (.fin 1920))
    ∧ getField (mkSpace ⟨50, 100, 300, 250⟩ ⟨1920, 1080⟩ .null .null) "totalAvailableHeight"
        = some (.num (.fin 1080)) := by
  have h := spec_C2_total_available_space ⟨50, 100, 300, 250⟩ none ⟨1920, 1080⟩
    (mkSpace ⟨50, 100, 300, 250⟩ ⟨1920, 1080⟩ .null .null)
    (by norm_num [DOMRect.right]) (by norm_num [DOMRect.bottom])
    (by norm_num [DOMRect.left]) (by norm_num [DOMRect.top])
    rfl
  exact h

/-- C10: in a single `addStretchDataToORTB2` call the global-scope merge and
the bidder-scope merge never both run: the global payload is merged only when
the configured bidders value is an empty collection or not an array, the
per-bidder payloads only when it is a non-empty array, and a non-empty bidder
array leaves the global fragment untouched even when the global flag is on. -/
theorem spec_C10_global_bidder_exclusive :
    (∀ cfg : ModuleConfig, ¬(globalCondition cfg = true ∧ bidderCondition cfg = true))
    ∧ (∀ cfg : ModuleConfig, globalCondition cfg = true →
        isEmpty (getBidders cfg) = true ∨ isArray (getBidders cfg) = false)
    ∧ (∀ cfg : ModuleConfig, bidderCondition cfg = true →
        ∃ bs : List JVal, getBidders cfg = .arr bs ∧ bs ≠ [])
    ∧ (∀ (cfg : ModuleConfig) (bs : List JVal), getBidders cfg = .arr bs → bs ≠ [] →
        ∀ (req : ReqBidsConfig) (sd : List (String × JVal)) (vp : Viewport) (now : ℚ),
          (addStretchDataToORTB2 req sd cfg vp now).global = req.global) := by
  have hkey : ∀ (cfg : ModuleConfig) (bs : List JVal), getBidders cfg = .arr bs → bs ≠ [] →
      globalCondition cfg = false := by
    intro cfg bs hbs hne
    unfold globalCondition
    rw [hbs]
    cases bs with
    | nil => exact absurd rfl hne
    | cons x xs => simp [isEmpty, isArray]
  refine ⟨?_, ?_, ?_, ?_⟩
  · rintro cfg ⟨hg, hb⟩
    unfold bidderCondition at hb
    cases hbs : getBidders cfg with
    | arr bs =>
      rw [hbs] at hb
      simp only [Bool.not_eq_true'] at hb
      have hne : bs ≠ [] := by
        intro h; subst h; simp at hb
      rw [hkey cfg bs hbs hne] at hg
      cases hg
    | num a => rw [hbs] at hb; cases hb
    | str s => rw [hbs] at hb; cases hb
    | bool b => rw [hbs] at hb; cases hb
    | null => rw [hbs] at hb; cases hb
    | obj fs => rw [hbs] at hb; cases hb
  · intro cfg hg
    unfold globalCondition at hg
    rcases Bool.and_eq_true_iff.mp hg with ⟨_, hor⟩
    rcases Bool.or_eq_true_iff.mp hor with h | h
    · exact Or.inl h
    · exact Or.inr (by simpa using h)
  · intro cfg hb
    unfold bidderCondition at hb
    cases hbs : getBidders cfg with
    | arr bs =>
      rw [hbs] at hb
      simp only [Bool.not_eq_true'] at hb
      refine ⟨bs, rfl, ?_⟩
      intro h; subst h; simp at hb
    | num a => rw [hbs] at hb; cases hb
    | str s => rw [hbs] at hb; cases hb
    | bool b => rw [hbs] at hb; cases hb
    | null => rw [hbs] at hb; cases hb
    | obj fs => rw [hbs] at hb; cases hb
  · intro cfg bs hbs hne req sd vp now
    obtain ⟨g, b, us⟩ := req
    unfold addStretchDataToORTB2
    dsimp only
    rw [hkey cfg bs hbs hne]
    simp

theorem spec_C10_global_bidder_exclusive_witness :
    (addStretchDataToORTB2
        ⟨.obj [("keep", .bool true)], .null, none⟩ []
        ⟨some ⟨some (.arr [.str "bidderA"]), some (.bool true), none⟩⟩
        ⟨1920, 1080⟩ 0).global
      = .obj [("keep", .bool true)] :=
  spec_C10_global_bidder_exclusive.2.2.2
    ⟨some ⟨some (.arr [.str "bidderA"]), some (.bool true), none⟩⟩
    [.str "bidderA"] (by simp [getBidders, jsTruthy]) (by simp)
    ⟨.obj [("keep", .bool true)], .null, none⟩ [] ⟨1920, 1080⟩ 0

/-- C5: an absent element measures to `null` without raising; a layout-read
failure (of the element or of its parent) is caught and measures to `null`;
and a slot whose measurement is `null` contributes nothing to
`collectResponsiveStretchData` and never disturbs the other slots'
measurements. -/
theorem spec_C5_absent_and_failure_yield_null :
    (∀ vp : Viewport, calculateAdSlotSpace none vp = none)
    ∧ (∀ (el : ElemGeom) (vp : Viewport), el.rect = none →
        calculateAdSlotSpace (some el) vp = none)
    ∧ (∀ (el : ElemGeom) (vp : Viewport), el.parentRect = some none →
        calculateAdSlotSpace (some el) vp = none)
    ∧ (∀ (locate : String → Option ElemGeom) (vp : Viewport)
        (us₁ us₂ : List AdUnit) (bad : AdUnit),
        calculateAdSlotSpace (locate bad.code) vp = none →
        collectResponsiveStretchData locate vp (us₁ ++ bad :: us₂)
          = collectResponsiveStretchData locate vp (us₁ ++ us₂)) := by
  refine ⟨fun vp => rfl, ?_, ?_, ?_⟩
  · intro el vp h
    simp [calculateAdSlotSpace, h]
  · intro el vp h
    cases hr : el.rect with
    | none => simp [calculateAdSlotSpace, hr]
    | some rect => simp [calculateAdSlotSpace, hr, h]
  · intro locate vp us₁ us₂ bad hnone
    unfold collectResponsiveStretchData
    rw [List.foldl_append, List.foldl_append, List.foldl_cons]
    by_cases hc : bad.code = ""
    · simp [hc]
    · simp [hc, hnone]

theorem spec_C5_absent_and_failure_yield_null_witness :
    calculateAdSlotSpace (some ⟨none, none⟩) ⟨1920, 1080⟩ = none
    ∧ collectResponsiveStretchData
        (fun c => if c = "bad" then some ⟨none, none⟩
                  else some ⟨some ⟨0, 0, 100, 100⟩, none⟩)
        ⟨1920, 1080⟩ ([⟨"good", none⟩] ++ ⟨"bad", none⟩ :: [⟨"other", none⟩])
      = collectResponsiveStretchData
        (fun c => if c = "bad" then some ⟨none, none⟩
                  else some ⟨some ⟨0, 0, 100, 100⟩, none⟩)
        ⟨1920, 1080⟩ ([⟨"good", none⟩] ++ [⟨"other", none⟩]) := by
  refine ⟨spec_C5_absent_and_failure_yield_null.2.1 ⟨none, none⟩ ⟨1920, 1080⟩ rfl, ?_⟩
  exact spec_C5_absent_and_failure_yield_null.2.2.2
    (fun c => if c = "bad" then some ⟨none, none⟩
              else some ⟨some ⟨0, 0, 100, 100⟩, none⟩)
    ⟨1920, 1080⟩ [⟨"good", none⟩] [⟨"other", none⟩] ⟨"bad", none⟩
    (by with_unfolding_all rfl)

/-- C4: one invocation of `getBidRequestData` fires the completion callback
exactly once on every control path — no ad units, no collected data,
successful merge, and host errors thrown during ad-unit resolution,
collection or merging. -/
theorem spec_C4_callback_exactly_once
    (req : ReqBidsConfig) (pbjsAdUnits : Option (List AdUnit))
    (locate : String → Option ElemGeom) (vp : Viewport) (cfg : ModuleConfig) (now : ℚ)
    (resolveThrows collectThrows mergeThrows : Bool) :
    ((getBidRequestData req pbjsAdUnits locate vp cfg now
        resolveThrows collectThrows mergeThrows).1.count .callback) = 1 := by
  unfold getBidRequestData
  dsimp only
  split_ifs <;> rfl

/-- C7 (code bug): the measurement record produced by `calculateAdSlotSpace`
never contains a `stretchPotential` member, although the module's own test
suite requires one classifying the stretch room as low/medium/high. -/
theorem spec_C7_no_stretchPotential (element : Option ElemGeom) (vp : Viewport) :
    optGetField (calculateAdSlotSpace element vp) "stretchPotential" = none := by
  cases element with
  | none => rfl
  | some el =>
    cases hr : el.rect with
    | none => simp [calculateAdSlotSpace, hr, optGetField]
    | some rect =>
      cases hp : el.parentRect with
      | none =>
        simp [calculateAdSlotSpace, hr, hp, optGetField, getField, mkSpace, lookupField]
      | some po =>
        cases po with
        | none => simp [calculateAdSlotSpace, hr, hp, optGetField]
        | some p =>
          simp [calculateAdSlotSpace, hr, hp, optGetField, getField, mkSpace, lookupField]

/-- C8 counterexample: with a zero-width viewport the code propagates
`Infinity` into `viewportWidthPercentage` instead of a numeric fallback, so
the claimed consistent numeric fallback does not exist. -/
theorem spec_C8_counterexample :
    optGetField (calculateAdSlotSpace
      (some ⟨some ⟨50, 100, 300, 250⟩, none⟩) ⟨0, 0⟩) "viewportWidthPercentage"
      = some (.num .posInf) := by
  with_unfolding_all rfl

/-- C8 as amended: when a viewport dimension is zero the corresponding
percentage field of the measurement record is never a finite number — the
division by zero propagates `Infinity` (positive element dimension), `NaN`
(zero element dimension) or `-Infinity` (negative) into the record, with no
numeric fallback. -/
theorem spec_C8_zero_viewport_percentages :
    (∀ (r : DOMRect) (pr : Option (Option DOMRect)) (vp : Viewport) (q : ℚ),
      vp.width = 0 →
      optGetField (calculateAdSlotSpace (some ⟨some r, pr⟩) vp) "viewportWidthPercentage"
        ≠ some (.num (.fin q)))
    ∧ (∀ (r : DOMRect) (pr : Option (Option DOMRect)) (vp : Viewport) (q : ℚ),
      vp.height = 0 →
      optGetField (calculateAdSlotSpace (some ⟨some r, pr⟩) vp) "viewportHeightPercentage"
        ≠ some (.num (.fin q))) := by
  have hnum : ∀ (a : ℚ) (q : ℚ), jsRound (jsMul100 (jsDiv a 0)) ≠ .fin q := by
    intro a q
    by_cases h0 : a = 0
    · simp [jsDiv, h0, jsMul100, jsRound]
    · by_cases hpos : 0 < a
      · simp [jsDiv, h0, hpos, jsMul100, jsRound]
      · simp [jsDiv, h0, hpos, jsMul100, jsRound]
  constructor
  · intro r pr vp q hw
    have h0 : ((vp.width : ℤ) : ℚ) = 0 := by simp [hw]
    cases pr with
    | none =>
      simp only [calculateAdSlotSpace, optGetField, Option.bind_some, getField, mkSpace,
        lookupField]
      simp only [h0]
      simp [lookupField, hnum r.width q]
    | some po =>
      cases po with
      | none => simp [calculateAdSlotSpace, optGetField]
      | some p =>
        simp only [calculateAdSlotSpace, optGetField, Option.bind_some, getField, mkSpace,
          lookupField]
        simp only [h0]
        simp [lookupField, hnum r.width q]
  · intro r pr vp q hh
    have h0 : ((vp.height : ℤ) : ℚ) = 0 := by simp [hh]
    cases pr with
    | none =>
      simp only [calculateAdSlotSpace, optGetField, Option.bind_some, getField, mkSpace,
        lookupField]
      simp only [h0]
      simp [lookupField, hnum r.height q]
    | some po =>
      cases po with
      | none => simp [calculateAdSlotSpace, optGetField]
      | some p =>
        simp only [calculateAdSlotSpace, optGetField, Option.bind_some, getField, mkSpace,
          lookupField]
        simp only [h0]
        simp [lookupField, hnum r.height q]

theorem spec_C8_zero_viewport_percentages_witness :
    optGetField (calculateAdSlotSpace
      (some ⟨some ⟨50, 100, 300, 250⟩, none⟩) ⟨0, 1080⟩) "viewportWidthPercentage"
      ≠ some (.num (.fin 0)) :=
  spec_C8_zero_viewport_percentages.1 ⟨50, 100, 300, 250⟩ none ⟨0, 1080⟩ 0 rfl

/-! ### The ancestor walk: order facts about the running minimum -/

theorem getMaxAvailableWidth_aux_le_init :
    ∀ (chain : List AncestorNode) (a : WithTop ℚ),
      chain.foldl
        (fun maxWidth cur =>
          if cur.display ≠ "contents" ∧ cur.position ≠ "absolute"
          then min maxWidth (cur.width : WithTop ℚ)
          else maxWidth) a ≤ a := by
  intro chain
  induction chain with
  | nil => intro a; simp
  | cons cur rest ih =>
    intro a
    simp only [List.foldl_cons]
    by_cases hc : cur.display ≠ "contents" ∧ cur.position ≠ "absolute"
    · rw [if_pos hc]
      exact le_trans (ih _) (min_le_left _ _)
    · rw [if_neg hc]
      exact ih a

theorem getMaxAvailableWidth_aux_le_mem :
    ∀ (chain : List AncestorNode) (a : WithTop ℚ) (n : AncestorNode),
      n ∈ chain → n.display ≠ "contents" → n.position ≠ "absolute" →
      chain.foldl
        (fun maxWidth cur =>
          if cur.display ≠ "contents" ∧ cur.position ≠ "absolute"
          then min maxWidth (cur.width : WithTop ℚ)
          else maxWidth) a ≤ (n.width : WithTop ℚ) := by
  intro chain
  induction chain with
  | nil => intro a n h; cases h
  | cons cur rest ih =>
    intro a n hmem hd hp
    simp only [List.foldl_cons]
    rcases List.mem_cons.mp hmem with h | h
    · subst h
      rw [if_pos (And.intro hd hp)]
      exact le_trans (getMaxAvailableWidth_aux_le_init rest _) (min_le_right _ _)
    · by_cases hc : cur.display ≠ "contents" ∧ cur.position ≠ "absolute"
      · rw [if_pos hc]
        exact ih _ n h hd hp
      · rw [if_neg hc]
        exact ih a n h hd hp

theorem getMaxAvailableWidth_aux_attained :
    ∀ (chain : List AncestorNode) (a : WithTop ℚ),
      chain.foldl
        (fun maxWidth cur =>
          if cur.display ≠ "contents" ∧ cur.position ≠ "absolute"
          then min maxWidth (cur.width : WithTop ℚ)
          else maxWidth) a = a
      ∨ ∃ n ∈ chain, n.display ≠ "contents" ∧ n.position ≠ "absolute" ∧
          chain.foldl
            (fun maxWidth cur =>
              if cur.display ≠ "contents" ∧ cur.position ≠ "absolute"
              then min maxWidth (cur.width : WithTop ℚ)
              else maxWidth) a = (n.width : WithTop ℚ) := by
  intro chain
  induction chain with
  | nil => intro a; exact Or.inl rfl
  | cons cur rest ih =>
    intro a
    simp only [List.foldl_cons]
    by_cases hc : cur.display ≠ "contents" ∧ cur.position ≠ "absolute"
    · rw [if_pos hc]
      rcases ih (min a (cur.width : WithTop ℚ)) with h | ⟨n, hn, hd, hp, he⟩
      · rcases min_choice a (cur.width : WithTop ℚ) with hm | hm
        · exact Or.inl (h.trans hm)
        · exact Or.inr ⟨cur, by simp, hc.1, hc.2, h.trans hm⟩
      · exact Or.inr ⟨n, by simp [hn], hd, hp, he⟩
    · rw [if_neg hc]
      rcases ih a with h | ⟨n, hn, hd, hp, he⟩
      · exact Or.inl h
      · exact Or.inr ⟨n, by simp [hn], hd, hp, he⟩

/-- C6 counterexample: for an element of width 100 lying directly under
`document.body`, `getMaxAvailableWidth` returns 100 (the element's own
width), while the minimum over the element's strict ancestors — what the
claim prescribes — is still unbounded. -/
theorem spec_C6_counterexample :
    getMaxAvailableWidth [⟨100, "block", "static"⟩] = ((100 : ℚ) : WithTop ℚ)
    ∧ specAncestorMinWidth [⟨100, "block", "static"⟩] = ⊤
    ∧ ((100 : ℚ) : WithTop ℚ) ≠ ⊤ := by
  refine ⟨?_, ?_, ?_⟩
  · simp [getMaxAvailableWidth]
  · simp [specAncestorMinWidth]
  · exact WithTop.coe_ne_top

/-- C6 as amended: `maxAvailableWidth` is the minimum width encountered while
walking the element itself and its ancestors up to (excluding)
`document.body`, skipping `display: contents` and absolutely positioned
nodes; it starts unbounded, is a lower bound of every visited flow node's
width, is attained at one of them when bounded, and an absolutely positioned
middle ancestor is skipped entirely, so it never lowers the result below the
outer ancestor's width. -/
theorem spec_C6_ancestor_walk :
    (∀ (chain : List AncestorNode) (n : AncestorNode), n ∈ chain →
      n.display ≠ "contents" → n.position ≠ "absolute" →
      getMaxAvailableWidth chain ≤ (n.width : WithTop ℚ))
    ∧ (∀ chain : List AncestorNode,
        getMaxAvailableWidth chain = ⊤
        ∨ ∃ n ∈ chain, n.display ≠ "contents" ∧ n.position ≠ "absolute" ∧
            getMaxAvailableWidth chain = (n.width : WithTop ℚ))
    ∧ (∀ el mid outer : AncestorNode, mid.position = "absolute" →
        getMaxAvailableWidth [el, mid, outer] = getMaxAvailableWidth [el, outer]) := by
  refine ⟨?_, ?_, ?_⟩
  · intro chain n hmem hd hp
    exact getMaxAvailableWidth_aux_le_mem chain ⊤ n hmem hd hp
  · intro chain
    exact getMaxAvailableWidth_aux_attained chain ⊤
  · intro el mid outer hmid
    simp [getMaxAvailableWidth, hmid]

theorem spec_C6_ancestor_walk_witness :
    getMaxAvailableWidth
        [⟨100, "block", "static"⟩, ⟨50, "block", "absolute"⟩, ⟨800, "block", "static"⟩]
      = getMaxAvailableWidth [⟨100, "block", "static"⟩, ⟨800, "block", "static"⟩] :=
  spec_C6_ancestor_walk.2.2 ⟨100, "block", "static"⟩ ⟨50, "block", "absolute"⟩
    ⟨800, "block", "static"⟩ rfl

/-! ### C9 support: entry membership and the impression base object -/

theorem stretchPayload_chain (vp : Viewport) (sd : List (String × JVal)) (now : ℚ) :
    stretchPayload vp sd now
      = .obj [("site", mkChain ["ext", "data", "responsiveStretch"]
          (.obj [ ("viewport", getViewportSizeJ vp)
                , ("adUnits", .obj sd)
                , ("timestamp", .num (.fin now))]))] := by
  simp [stretchPayload, mkChain]

theorem impDataFor_chain (si : JVal) :
    impDataFor si = .obj [("ext", mkChain ["data", "responsiveStretch"] si)] := by
  simp [impDataFor, mkChain]

theorem mem_setField : ∀ (A : List (String × JVal)) (k : String) (v : JVal)
    (e : String × JVal), e ∈ setField A k v → e ∈ A ∨ e = (k, v) := by
  intro A k v e h
  induction A with
  | nil => simpa [setField] using h
  | cons hd tl ih =>
    obtain ⟨k₁, v₁⟩ := hd
    by_cases h1 : k₁ = k
    · subst h1
      simp only [setField, if_pos rfl] at h
      rcases List.mem_cons.mp h with h2 | h2
      · exact Or.inr (by simp [h2])
      · exact Or.inl (List.mem_cons_of_mem _ h2)
    · simp only [setField, if_neg h1] at h
      rcases List.mem_cons.mp h with h2 | h2
      · exact Or.inl (by simp [h2])
      · rcases ih h2 with h3 | h3
        · exact Or.inl (List.mem_cons_of_mem _ h3)
        · exact Or.inr h3

theorem mem_foldl_setField : ∀ (l A : List (String × JVal)) (e : String × JVal),
    e ∈ l.foldl (fun acc p => setField acc p.1 p.2) A → e ∈ A ∨ e ∈ l := by
  intro l
  induction l with
  | nil => intro A e h; exact Or.inl h
  | cons q rest ih =>
    intro A e h
    rcases ih (setField A q.1 q.2) e h with h1 | h1
    · rcases mem_setField A q.1 q.2 e h1 with h2 | h2
      · exact Or.inl h2
      · exact Or.inr (by simp [h2])
    · exact Or.inr (List.mem_cons_of_mem _ h1)

theorem mem_objFromEntries {l : List (String × JVal)} {e : String × JVal}
    (h : e ∈ objFromEntries l) : e ∈ l := by
  rcases mem_foldl_setField l [] e h with h1 | h1
  · cases h1
  · exact h1

theorem setField_ne_nil (A : List (String × JVal)) (k : String) (v : JVal) :
    setField A k v ≠ [] := by
  cases A with
  | nil => simp [setField]
  | cons hd tl =>
    obtain ⟨k₁, v₁⟩ := hd
    by_cases h1 : k₁ = k <;> simp [setField, h1]

theorem foldl_setField_ne_nil : ∀ (l A : List (String × JVal)), A ≠ [] →
    l.foldl (fun acc p => setField acc p.1 p.2) A ≠ [] := by
  intro l
  induction l with
  | nil => intro A h; exact h
  | cons q rest ih =>
    intro A _
    exact ih (setField A q.1 q.2) (setField_ne_nil A q.1 q.2)

theorem objFromEntries_ne_nil {l : List (String × JVal)} (h : l ≠ []) :
    objFromEntries l ≠ [] := by
  cases l with
  | nil => exact absurd rfl h
  | cons q rest =>
    unfold objFromEntries
    rw [List.foldl_cons]
    exact foldl_setField_ne_nil rest _ (setField_ne_nil [] q.1 q.2)

theorem jsTruthy_false_not_obj {v : JVal} (h : jsTruthy v = false) :
    ∀ fs, v ≠ .obj fs := by
  intro fs hv
  subst hv
  simp [jsTruthy] at h

theorem lookupPath_jsOrEmptyObj (o : Option JVal) (k : String) (p : List String) :
    lookupPath (jsOrEmptyObj o) (k :: p) = optLookupPath o (k :: p) := by
  cases o with
  | none => simp [jsOrEmptyObj, optLookupPath, lookupPath, lookupField]
  | some v =>
    by_cases ht : jsTruthy v = true
    · simp [jsOrEmptyObj, ht, optLookupPath]
    · have hf : jsTruthy v = false := by simpa using ht
      rw [show jsOrEmptyObj (some v) = .obj [] by simp [jsOrEmptyObj, hf]]
      simp [optLookupPath, lookupPath, lookupField]
      rw [lookupPath_non_obj (jsTruthy_false_not_obj hf) k p]

theorem stretchPayload_chain4 (vp : Viewport) (sd : List (String × JVal)) (now : ℚ) :
    stretchPayload vp sd now
      = mkChain ["site", "ext", "data", "responsiveStretch"]
          (.obj [ ("viewport", getViewportSizeJ vp)
                , ("adUnits", .obj sd)
                , ("timestamp", .num (.fin now))]) := by
  simp [stretchPayload, mkChain]

theorem firstVersion_impDataFor_entries (si : JVal) :
    FirstVersion.impDataFor si
      = .obj ([("ext", mkChain ["data", "responsiveStretch"] si)] ++
          (if FirstVersion.bannerCondition si then
            [("banner", mkChain ["wmax"] ((getField si "maxAvailableWidth").getD .null))]
           else [])) := by
  simp [FirstVersion.impDataFor, mkChain]

set_option maxRecDepth 4000 in
/-- C9 counterexample: the earlier copy's merge writes the impression path
`banner.wmax` — outside the three `responsiveStretch` scope paths — whenever
a slot's measurement has a truthy, finite `maxAvailableWidth`: starting from
an empty `ortb2Imp`, the path is empty before the merge and holds the width
afterwards. -/
theorem spec_C9_counterexample :
    optLookupPath (some (.obj [])) ["banner", "wmax"] = none
    ∧ (((FirstVersion.addStretchDataToORTB2
          ⟨.null, .null, some [⟨"ad-1", some (.obj [])⟩]⟩
          [("ad-1", .obj [("maxAvailableWidth", .num (.fin 500))])]
          ⟨none⟩ 0).adUnits.getD []).map
        (fun au => optLookupPath au.ortb2Imp ["banner", "wmax"]))
        = [some (.num (.fin 500))] := by
  constructor
  · rfl
  · simp [FirstVersion.addStretchDataToORTB2, FirstVersion.updateAdUnitImp,
      FirstVersion.impDataFor, FirstVersion.bannerCondition, FirstVersion.stretchPayload,
      getBidders, globalCondition, globalEnabled, impLevelEnabled, isEmpty, isArray,
      jsTruthy, getField, lookupField, jsOrEmptyObj, mergeDeep, mergeDeepFields,
      mergeDeepEntry, optLookupPath, lookupPath, jvalBeq, jvalBeqList, jvalBeqFields]

/-- C9 as amended: the main copy of `addStretchDataToORTB2` writes only the
three scope paths — `site.ext.data.responsiveStretch` in the global fragment,
the same path under each named bidder key in the bidder fragment, and
`ext.data.responsiveStretch` in a slot's `ortb2Imp` — leaving the lookup of
every key path independent of those unchanged, and never changing an ad
unit's `code`; the earlier copy's impression merge additionally writes
`banner.wmax` in `ortb2Imp`, and leaves every path independent of both of
its impression paths unchanged. -/
theorem spec_C9_write_paths :
    (∀ (req : ReqBidsConfig) (sd : List (String × JVal)) (cfg : ModuleConfig)
        (vp : Viewport) (now : ℚ) (p : List String),
      isPrefixB ["site", "ext", "data", "responsiveStretch"] p = false →
      isPrefixB p ["site", "ext", "data", "responsiveStretch"] = false →
      lookupPath (addStretchDataToORTB2 req sd cfg vp now).global p
        = lookupPath req.global p)
    ∧ (∀ (req : ReqBidsConfig) (sd : List (String × JVal)) (cfg : ModuleConfig)
        (vp : Viewport) (now : ℚ) (bs : List JVal) (p : List String),
      getBidders cfg = .arr bs →
      (∀ x ∈ bs,
        isPrefixB (jsKeyOf x :: ["site", "ext", "data", "responsiveStretch"]) p = false ∧
        isPrefixB p (jsKeyOf x :: ["site", "ext", "data", "responsiveStretch"]) = false) →
      lookupPath (addStretchDataToORTB2 req sd cfg vp now).bidder p
        = lookupPath req.bidder p)
    ∧ (∀ (sd : List (String × JVal)) (au : AdUnit) (p : List String),
      isPrefixB ["ext", "data", "responsiveStretch"] p = false →
      isPrefixB p ["ext", "data", "responsiveStretch"] = false →
      (updateAdUnitImp sd au).code = au.code ∧
      optLookupPath (updateAdUnitImp sd au).ortb2Imp p
        = optLookupPath au.ortb2Imp p)
    ∧ (∀ (sd : List (String × JVal)) (au : AdUnit) (p : List String),
      isPrefixB ["ext", "data", "responsiveStretch"] p = false →
      isPrefixB p ["ext", "data", "responsiveStretch"] = false →
      isPrefixB ["banner", "wmax"] p = false →
      isPrefixB p ["banner", "wmax"] = false →
      (FirstVersion.updateAdUnitImp sd au).code = au.code ∧
      optLookupPath (FirstVersion.updateAdUnitImp sd au).ortb2Imp p
        = optLookupPath au.ortb2Imp p) := by
  refine ⟨?_, ?_, ?_, ?_⟩
  · intro req sd cfg vp now p h1 h2
    obtain ⟨g, b, us⟩ := req
    unfold addStretchDataToORTB2
    dsimp only
    by_cases hc : globalCondition cfg = true
    · simp only [hc, if_true]
      rw [stretchPayload_chain vp sd now]
      refine lookupPath_mergeDeep_chains _ g p (by simp) ?_
      intro e he
      rcases List.mem_singleton.mp he with rfl
      exact ⟨["ext", "data", "responsiveStretch"], _, rfl, h1, h2⟩
    · simp [hc]
  · intro req sd cfg vp now bs p hbs hx
    obtain ⟨g, b, us⟩ := req
    unfold addStretchDataToORTB2
    dsimp only
    rw [hbs]
    by_cases hbe : bs.isEmpty = true
    · simp [hbe]
    · simp only [Bool.not_eq_true] at hbe
      simp only [hbe, Bool.false_eq_true, if_false]
      refine lookupPath_mergeDeep_chains _ b p ?_ ?_
      · apply objFromEntries_ne_nil
        cases bs with
        | nil => simp at hbe
        | cons y ys => simp
      · intro e he
        obtain ⟨x, hxbs, hxe⟩ := List.mem_map.mp (mem_objFromEntries he)
        rcases hxe.symm with rfl
        refine ⟨["site", "ext", "data", "responsiveStretch"], _,
          stretchPayload_chain4 vp sd now, ?_, ?_⟩
        · exact (hx x hxbs).1
        · exact (hx x hxbs).2
  · intro sd au p h1 h2
    cases hsi : lookupField sd au.code with
    | none => exact ⟨by simp [updateAdUnitImp, hsi], by simp [updateAdUnitImp, hsi]⟩
    | some si =>
      by_cases ht : jsTruthy si = true
      · refine ⟨by simp [updateAdUnitImp, hsi, ht], ?_⟩
        cases p with
        | nil => simp [isPrefixB] at h2
        | cons k p' =>
          simp only [updateAdUnitImp, hsi, ht, if_pos rfl]
          show lookupPath (mergeDeep (jsOrEmptyObj au.ortb2Imp) (impDataFor si)) (k :: p')
            = optLookupPath au.ortb2Imp (k :: p')
          rw [impDataFor_chain si]
          rw [lookupPath_mergeDeep_chains _ _ (k :: p') (by simp) ?_]
          · exact lookupPath_jsOrEmptyObj au.ortb2Imp k p'
          · intro e he
            rcases List.mem_singleton.mp he with rfl
            exact ⟨["data", "responsiveStretch"], _, rfl, h1, h2⟩
      · exact ⟨by simp [updateAdUnitImp, hsi, ht], by simp [updateAdUnitImp, hsi, ht]⟩
  · intro sd au p h1 h2 h3 h4
    cases hsi : lookupField sd au.code with
    | none =>
      exact ⟨by simp [FirstVersion.updateAdUnitImp, hsi],
        by simp [FirstVersion.updateAdUnitImp, hsi]⟩
    | some si =>
      by_cases ht : jsTruthy si = true
      · refine ⟨by simp [FirstVersion.updateAdUnitImp, hsi, ht], ?_⟩
        cases p with
        | nil => simp [isPrefixB] at h2
        | cons k p' =>
          simp only [FirstVersion.updateAdUnitImp, hsi, ht, if_pos rfl]
          show lookupPath
              (mergeDeep (jsOrEmptyObj au.ortb2Imp) (FirstVersion.impDataFor si)) (k :: p')
            = optLookupPath au.ortb2Imp (k :: p')
          rw [firstVersion_impDataFor_entries si]
          rw [lookupPath_mergeDeep_chains _ _ (k :: p') (by simp) ?_]
          · exact lookupPath_jsOrEmptyObj au.ortb2Imp k p'
          · intro e he
            rw [List.mem_append] at he
            rcases he with he | he
            · rcases List.mem_singleton.mp he with rfl
              exact ⟨["data", "responsiveStretch"], _, rfl, h1, h2⟩
            · by_cases hb : FirstVersion.bannerCondition si = true
              · rw [if_pos hb] at he
                rcases List.mem_singleton.mp he with rfl
                exact ⟨["wmax"], _, rfl, h3, h4⟩
              · rw [if_neg hb] at he
                cases he
      · exact ⟨by simp [FirstVersion.updateAdUnitImp, hsi, ht],
          by simp [FirstVersion.updateAdUnitImp, hsi, ht]⟩

theorem spec_C9_write_paths_witness :
    lookupPath (addStretchDataToORTB2
        ⟨.obj [("app", .str "news")], .null, none⟩ [] ⟨none⟩ ⟨1920, 1080⟩ 0).global
      ["app"]
      = lookupPath (JVal.obj [("app", .str "news")]) ["app"] :=
  spec_C9_write_paths.1 ⟨.obj [("app", .str "news")], .null, none⟩ [] ⟨none⟩
    ⟨1920, 1080⟩ 0 ["app"] (by decide) (by decide)
